import Mathlib

/-
Verification of the reflection-driven persistence engine in Model.hpp / Model.cpp.

The embedding translates the C++ source directly:
- Qt meta-properties become an explicit per-type schema (ordered list of
  persistent-attribute descriptors, excluding the `id` identity property:
  the C++ iterates from `metaObject()->propertyOffset()`, which skips the
  properties declared on the `Model` base class, `id` among them).
- `QVariant` values become the inductive `Value`; a `Model*` stored in a
  variant is `Value.vModel`.
- The abstract database capability (Qt SQL with the SQLite driver) becomes
  `DBConn`: prepare/execute failure is injected by statement text, a
  successful INSERT draws the next autoincrement id, and `lastInsertId`
  reports the connection-wide last inserted row id, which persists across
  later UPDATE/DELETE executions (SQLite driver behaviour).
- Member functions become pure state-passing functions; the recursive
  operations (`update`, `load`) take an explicit fuel parameter.
-/

set_option maxRecDepth 16000

namespace QtModel

mutual

/-- Per-type schema: table name plus the ordered persistent attribute
descriptors (the `Q_PROPERTY` list of the concrete class, `id` excluded). -/
inductive Schema : Type where
  | mk : String → List PropDesc → Schema

/-- Descriptor of one persistent attribute: its name and, when the
attribute's declared type is itself a `Model` subclass (a relation
attribute), the related type's schema. -/
inductive PropDesc : Type where
  | mk : String → Option Schema → PropDesc

end

def Schema.table : Schema → String
  | .mk t _ => t

def Schema.props : Schema → List PropDesc
  | .mk _ ps => ps

def PropDesc.name : PropDesc → String
  | .mk n _ => n

def PropDesc.related : PropDesc → Option Schema
  | .mk _ r => r

mutual

/-- A `QVariant` payload as it occurs in this library: an integer
(`LongLong` database values, foreign keys), a string, a `Model*`
pointing at a related entity, or the invalid variant. -/
inductive Value : Type where
  | vInt : Int → Value
  | vStr : String → Value
  | vModel : ModelState → Value
  | vInvalid : Value

/-- One property slot of a live instance: its static descriptor and its
current value (`vInvalid` when still unset). -/
inductive PropSlot : Type where
  | mk : PropDesc → Value → PropSlot

/-- A dynamic property (`QObject::setProperty` on a name that is not a
declared `Q_PROPERTY`). -/
inductive DynProp : Type where
  | mk : String → Value → DynProp

/-- The state of one `Model` instance: `m_id`, the table name
(`tableName()`), the property slots in declaration order, the dynamic
properties, and `m_modifiedProperties` (a set of names, kept as a
duplicate-free list). -/
inductive ModelState : Type where
  | mk : Nat → String → List PropSlot → List DynProp → List String → ModelState

end

def PropSlot.desc : PropSlot → PropDesc
  | .mk d _ => d

def PropSlot.value : PropSlot → Value
  | .mk _ v => v

def PropSlot.name (s : PropSlot) : String :=
  s.desc.name

def DynProp.name : DynProp → String
  | .mk n _ => n

def DynProp.value : DynProp → Value
  | .mk _ v => v

def ModelState.m_id : ModelState → Nat
  | .mk i _ _ _ _ => i

def ModelState.table : ModelState → String
  | .mk _ t _ _ _ => t

def ModelState.props : ModelState → List PropSlot
  | .mk _ _ ps _ _ => ps

def ModelState.dynProps : ModelState → List DynProp
  | .mk _ _ _ ds _ => ds

def ModelState.modified : ModelState → List String
  | .mk _ _ _ _ ms => ms

/-- Is this variant a `Model*`? (`value.canConvert<Model*>()`). -/
def Value.isModel : Value → Bool
  | .vModel _ => true
  | _ => false

/-- `QVariant::toUInt` as used on the integeral foreign-key payloads of
this library; non-convertible variants give 0. -/
def Value.toUInt : Value → Nat
  | .vInt n => n.toNat
  | _ => 0

/-- The descriptor list of an instance (its static meta-object property
list from `propertyOffset()` to `propertyCount()`). -/
def ModelState.descs (m : ModelState) : List PropDesc :=
  m.props.map PropSlot.desc

/-- Build a `ModelState` with a replaced id (`m_id = id;` in `setId`). -/
def ModelState.withId (m : ModelState) (i : Nat) : ModelState :=
  match m with
  | .mk _ t ps ds ms => .mk i t ps ds ms

/-- Build a `ModelState` with replaced property slots. -/
def ModelState.withProps (m : ModelState) (ps : List PropSlot) : ModelState :=
  match m with
  | .mk i t _ ds ms => .mk i t ps ds ms

/-- Build a `ModelState` with replaced dynamic properties. -/
def ModelState.withDyn (m : ModelState) (ds : List DynProp) : ModelState :=
  match m with
  | .mk i t ps _ ms => .mk i t ps ds ms

/-- `Model::isSaved`: `m_id != 0`. -/
def ModelState.isSaved (m : ModelState) : Bool :=
  m.m_id != 0

/-- `Model::isModified`: `!m_modifiedProperties.isEmpty()`. -/
def ModelState.isModified (m : ModelState) : Bool :=
  !m.modified.isEmpty

/-- `Model::setId`: the guard only suppresses the change signal; the
stored id becomes `id` either way. -/
def ModelState.setId (m : ModelState) (i : Nat) : ModelState :=
  if i = m.m_id then m else m.withId i

/-- `Model::setModified`: `QSet::insert` (idempotent add). -/
def ModelState.setModified (m : ModelState) (propertyName : String) : ModelState :=
  match m with
  | .mk i t ps ds ms =>
      .mk i t ps ds (if ms.contains propertyName then ms else ms ++ [propertyName])

/-- Find the static descriptor of a named property
(`metaObject()->indexOfProperty` followed by `property(i)`). -/
def ModelState.findDesc (m : ModelState) (n : String) : Option PropDesc :=
  (m.props.find? (fun s => s.name == n)).map PropSlot.desc

/-- Does a declared `Q_PROPERTY` with this name exist? -/
def ModelState.hasProp (m : ModelState) (n : String) : Bool :=
  m.props.any (fun s => s.name == n)

/-- `QMetaProperty::read` via the property name: the slot's current
value, or the invalid variant when no such property exists. -/
def ModelState.readProp (m : ModelState) (n : String) : Value :=
  match m.props.find? (fun s => s.name == n) with
  | some s => s.value
  | none => Value.vInvalid

/-- Can `QMetaProperty::write` store this variant in a slot with this
descriptor? A relation attribute (typed `Model*`) accepts only a model
value; a plain attribute accepts any valid non-model value. -/
def writable (d : PropDesc) (v : Value) : Bool :=
  match d.related, v with
  | some _, Value.vModel _ => true
  | some _, _ => false
  | none, Value.vModel _ => false
  | none, Value.vInvalid => false
  | none, _ => true

/-- Replace the value of the first slot with the given name. -/
def setSlotValue : List PropSlot → String → Value → List PropSlot
  | [], _, _ => []
  | s :: rest, n, v =>
      if s.name == n then PropSlot.mk s.desc v :: rest
      else s :: setSlotValue rest n v

/-- Replace the value of the named slot on an instance (used for the
in-place mutation of a related model reached through a slot). -/
def ModelState.setSlot (m : ModelState) (n : String) (v : Value) : ModelState :=
  m.withProps (setSlotValue m.props n v)

/-- `QMetaProperty::write` via the property name: returns whether the
write succeeded together with the (possibly unchanged) instance. -/
def ModelState.write (m : ModelState) (n : String) (v : Value) : Bool × ModelState :=
  match m.props.find? (fun s => s.name == n) with
  | some s => if writable s.desc v then (true, m.setSlot n v) else (false, m)
  | none => (false, m)

/-- Set or replace a dynamic property value. -/
def dynSet : List DynProp → String → Value → List DynProp
  | [], n, v => [DynProp.mk n v]
  | d :: rest, n, v =>
      if d.name == n then DynProp.mk n v :: rest
      else d :: dynSet rest n v

/-- Look a dynamic property up by name. -/
def dynLookup : List DynProp → String → Option Value
  | [], _ => none
  | d :: rest, n => if d.name == n then some d.value else dynLookup rest n

/-- `QObject::setProperty`: writes the declared property when one with
this name exists (the boolean result is discarded by the caller),
otherwise stores a dynamic property. -/
def ModelState.setProperty (m : ModelState) (n : String) (v : Value) : ModelState :=
  if m.hasProp n then (m.write n v).2
  else m.withDyn (dynSet m.dynProps n v)

/-- `QObject::property`: the declared property's value when one exists,
otherwise the dynamic property (invalid variant when absent). -/
def ModelState.propertyRead (m : ModelState) (n : String) : Value :=
  if m.hasProp n then m.readProp n
  else (dynLookup m.dynProps n).getD Value.vInvalid

/-- `QObject::dynamicPropertyNames().contains(name)`. -/
def ModelState.hasDynProp (m : ModelState) (n : String) : Bool :=
  m.dynProps.any (fun d => d.name == n)

/-- The `Model` constructor (`Model::Model`): it initializes only the
`QObject` base. `m_id` (Model.hpp, line 148) has no initializer and the
constructor body never assigns it, so after construction it holds the
indeterminate contents of its memory, modelled here by the explicit
parameter `garbage`. No slot value is set and both the dynamic
properties and `m_modifiedProperties` start empty. -/
def ModelState.construct (garbage : Nat) (table : String) (descs : List PropDesc) :
    ModelState :=
  ModelState.mk garbage table (descs.map (fun d => PropSlot.mk d Value.vInvalid)) [] []

/-- `Model::createRelatedInstance` / `QMetaObject::newInstance`: a fresh
instance of the related type, running the same constructor. Its
uninitialized `m_id` is modelled as 0 here, the benign case (see
`ModelState.construct` for the faithful treatment of that member). -/
def freshFromSchema (sch : Schema) : ModelState :=
  ModelState.construct 0 sch.table sch.props

/-- A database row as fetched by a select: column name to value. -/
def Row : Type :=
  List (String × Value)

/-- `query.value(name)`: an unknown column yields the invalid variant. -/
def rowValue (row : Row) (col : String) : Value :=
  match List.find? (fun c => c.1 == col) row with
  | some c => c.2
  | none => Value.vInvalid

/-- The abstract database capability (a Qt SQL connection with the
SQLite driver): the stored rows served to selects, the statement texts
the driver fails to prepare or to execute (failure injection for
`PrepareError` / `ExecError`), the next autoincrement id handed out by a
successful INSERT, and the connection-wide last inserted row id
(`lastInsertId`, which the SQLite driver reports for any query and which
persists across later UPDATE/DELETE executions). Row effects of DML are
not re-read by any modelled operation. -/
structure DBConn : Type where
  tables : List (String × Nat × Row)
  prepFail : List String
  execFail : List String
  nextId : Nat
  lastInsert : Option Nat

/-- Fetch the first row of the given table with the given id
(`query.first()` on the prepared select). -/
def DBConn.lookupRow (conn : DBConn) (table : String) (i : Nat) : Option Row :=
  (conn.tables.find? (fun e => e.1 == table && e.2.1 == i)).map (fun e => e.2.2)

/-- A prepared `QSqlQuery`: its statement text and its current bindings
in binding order. -/
structure SqlQuery : Type where
  text : String
  binds : List (String × Value)

/-- `QSqlQuery::bindValue`: re-binding an existing placeholder replaces
its value, a new placeholder is appended. -/
def SqlQuery.bindValue (q : SqlQuery) (k : String) (v : Value) : SqlQuery :=
  if q.binds.any (fun b => b.1 == k) then
    SqlQuery.mk q.text (q.binds.map (fun b => if b.1 == k then (k, v) else b))
  else
    SqlQuery.mk q.text (q.binds ++ [(k, v)])

/-- Does the statement text start with the given keyword? (How the
database tells an INSERT from other statements.) -/
def textStartsWith (s pre : String) : Bool :=
  List.isPrefixOf pre.data s.data

/-- `query.exec()` on a DML statement. Executing a text on the failure
list is rejected. A successful INSERT draws the next autoincrement id
and makes it the connection's last inserted id; other statements leave
the connection counters untouched (in particular `lastInsert` keeps the
stale id of an earlier insert, as the SQLite driver does). -/
def DBConn.execQuery (conn : DBConn) (q : SqlQuery) : Option DBConn :=
  if conn.execFail.contains q.text then none
  else if textStartsWith q.text "INSERT INTO " then
    some { conn with nextId := conn.nextId + 1, lastInsert := some conn.nextId }
  else some conn

/-- `queryStr.last().chop(1)`: remove the final character of the last
item of the fragment list. -/
def chopLastItem (l : List String) : List String :=
  match l.getLast? with
  | some s => l.dropLast ++ [s.dropRight 1]
  | none => l

/-- The fragment list built by `Model::insertQuery` (each
`forEachProperty` pass pushes the name and a comma; `removeLast` drops
the trailing comma item). -/
def insertFragments (m : ModelState) : List String :=
  ((["INSERT INTO ", m.table, " ("]
      ++ m.props.flatMap (fun s => [s.name, ","])).dropLast
    ++ [") VALUES ("]
    ++ m.props.flatMap (fun s => [":" ++ s.name, ","])).dropLast
    ++ [")"]

/-- The INSERT statement text (`queryStr.join("")`). -/
def insertText (m : ModelState) : String :=
  String.join (insertFragments m)

/-- The fragment list built by `Model::updateQuery` before the binding
loop: one name item and one ` = :name,` item per member of the dirty
set, the trailing comma removed by chopping the last item. -/
def updateFragments (m : ModelState) : List String :=
  chopLastItem
    (["UPDATE ", m.table, " SET "]
      ++ m.modified.flatMap (fun p => [p, " = :" ++ p ++ ","]))
    ++ [" WHERE id = :id"]

/-- The UPDATE statement text. -/
def updateText (m : ModelState) : String :=
  String.join (updateFragments m)

/-- The DELETE statement text built by `Model::deleteQuery`. -/
def deleteText (m : ModelState) : String :=
  "DELETE FROM " ++ m.table ++ " WHERE id = ?"

/-- The fragment list built by `Model::load` for the select. -/
def selectFragments (m : ModelState) : List String :=
  (["SELECT "] ++ m.props.flatMap (fun s => [s.name, ","])).dropLast
    ++ [" FROM ", m.table, " WHERE id = :id"]

/-- The SELECT statement text. -/
def selectText (m : ModelState) : String :=
  String.join (selectFragments m)

/-- `Model::insertQuery`: build the INSERT text over all persistent
attributes; if the driver cannot prepare it, return the invalid variant
(`none`); otherwise bind, for every attribute in schema order, the raw
value `metaProperty.read(this)` — for a relation attribute this is the
related `Model` object itself, with no persist of the related entity
and no substitution of its id. -/
def ModelState.insertQuery (conn : DBConn) (m : ModelState) : Option SqlQuery :=
  let text := insertText m
  if conn.prepFail.contains text then none
  else some (SqlQuery.mk text (m.props.map (fun s => (":" ++ s.name, s.value))))

/-- `Model::deleteQuery`: prepare the DELETE text and bind the single
positional parameter to `m_id`. -/
def ModelState.deleteQuery (conn : DBConn) (m : ModelState) : Option SqlQuery :=
  let text := deleteText m
  if conn.prepFail.contains text then none
  else some (SqlQuery.mk text [("?", Value.vInt (Int.ofNat m.m_id))])

/-- The outcome of a DML-executing operation: reported success, the
instance afterwards, the connection afterwards, and the trace of
statement texts handed to `query.exec()` (in execution order, including
rejected executions). -/
structure DMLResult : Type where
  ok : Bool
  model : ModelState
  conn : DBConn
  trace : List String

/-- `Model::execDML`: an invalid variant fails without executing; an
execution rejected by the driver fails; after a successful execution,
if the connection reports a valid `lastInsertId`, the instance's id is
overwritten with it (`setId(query.lastInsertId().toUInt())`). -/
def execDML (conn : DBConn) (m : ModelState) (q : Option SqlQuery) : DMLResult :=
  match q with
  | none => DMLResult.mk false m conn []
  | some q =>
    match conn.execQuery q with
    | none => DMLResult.mk false m conn [q.text]
    | some conn1 =>
      match conn1.lastInsert with
      | some v => DMLResult.mk true (m.setId v) conn1 [q.text]
      | none => DMLResult.mk true m conn1 [q.text]

/-- `Model::insert`: fails at once when the instance is already saved,
otherwise executes the insert statement. -/
def ModelState.insert (conn : DBConn) (m : ModelState) : DMLResult :=
  if m.isSaved then DMLResult.mk false m conn []
  else execDML conn m (m.insertQuery conn)

/-- `Model::deleteFromDatabase`: executes the delete statement; on
success the C++ additionally schedules the object for disposal
(`deleteLater`), which has no bearing on the state modelled here. -/
def ModelState.deleteFromDatabase (conn : DBConn) (m : ModelState) : DMLResult :=
  execDML conn m (m.deleteQuery conn)

/-- The outcome of a query-builder run: the prepared query (`none` for
the invalid variant the C++ returns on abort), the instance afterwards
(related models reached through its slots are mutated in place by the
builder), the connection afterwards, and the statements executed by the
recursive persists of related entities. -/
structure BuildResult : Type where
  q : Option SqlQuery
  model : ModelState
  conn : DBConn
  trace : List String

/-- The binding loop of `Model::updateQuery` (lines 201-219): for every
member of the dirty set, read the property; when the value converts to
`Model*`, first persist the related entity — insert it when unsaved
(aborting on failure), then, per the `else if` chain, update it when it
is (still) modified (aborting on failure) — and bind its current id;
otherwise bind the raw value. `doUpdate` is the recursive
`Model::update` call, passed explicitly so the recursion is carried by
the caller's fuel. -/
def updateBindLoop (doUpdate : DBConn → ModelState → DMLResult)
    (conn : DBConn) (m : ModelState) (q : SqlQuery) :
    List String → BuildResult
  | [] => BuildResult.mk (some q) m conn []
  | pname :: rest =>
    let value := m.readProp pname
    let param := ":" ++ pname
    match value with
    | Value.vModel rm =>
      if !rm.isSaved then
        let ri := ModelState.insert conn rm
        if !ri.ok then
          BuildResult.mk none (m.setSlot pname (Value.vModel ri.model)) ri.conn ri.trace
        else if ri.model.isModified then
          let ru := doUpdate ri.conn ri.model
          if !ru.ok then
            BuildResult.mk none (m.setSlot pname (Value.vModel ru.model)) ru.conn
              (ri.trace ++ ru.trace)
          else
            let r := updateBindLoop doUpdate ru.conn
              (m.setSlot pname (Value.vModel ru.model))
              (q.bindValue param (Value.vInt (Int.ofNat ru.model.m_id))) rest
            BuildResult.mk r.q r.model r.conn (ri.trace ++ ru.trace ++ r.trace)
        else
          let r := updateBindLoop doUpdate ri.conn
            (m.setSlot pname (Value.vModel ri.model))
            (q.bindValue param (Value.vInt (Int.ofNat ri.model.m_id))) rest
          BuildResult.mk r.q r.model r.conn (ri.trace ++ r.trace)
      else if rm.isModified then
        let ru := doUpdate conn rm
        if !ru.ok then
          BuildResult.mk none (m.setSlot pname (Value.vModel ru.model)) ru.conn ru.trace
        else
          let r := updateBindLoop doUpdate ru.conn
            (m.setSlot pname (Value.vModel ru.model))
            (q.bindValue param (Value.vInt (Int.ofNat ru.model.m_id))) rest
          BuildResult.mk r.q r.model r.conn (ru.trace ++ r.trace)
      else
        updateBindLoop doUpdate conn m
          (q.bindValue param (Value.vInt (Int.ofNat rm.m_id))) rest
    | v => updateBindLoop doUpdate conn m (q.bindValue param v) rest

/-- `Model::updateQuery`: build the UPDATE text from the dirty set's
current members; when the driver cannot prepare it, return the invalid
variant before any binding; otherwise run the binding loop and finally
bind `:id` to the instance's id. -/
def updateQueryF (doUpdate : DBConn → ModelState → DMLResult)
    (conn : DBConn) (m : ModelState) : BuildResult :=
  let text := updateText m
  if conn.prepFail.contains text then BuildResult.mk none m conn []
  else
    let r := updateBindLoop doUpdate conn m (SqlQuery.mk text []) m.modified
    match r.q with
    | none => r
    | some q =>
      BuildResult.mk (some (q.bindValue ":id" (Value.vInt (Int.ofNat r.model.m_id))))
        r.model r.conn r.trace

/-- `Model::update`: fails at once when the instance is not saved or
has no modified property (no statement executed in either case);
otherwise executes the query built by `updateQuery`. The fuel bounds
only the depth of the recursive persists of related entities; it is
consumed after the guards so every source path is reproduced exactly. -/
def ModelState.update : Nat → DBConn → ModelState → DMLResult
  | fuel, conn, m =>
    if !m.isSaved then DMLResult.mk false m conn []
    else if !m.isModified then DMLResult.mk false m conn []
    else
      match fuel with
      | 0 => DMLResult.mk false m conn []
      | f + 1 =>
        let r := updateQueryF (fun c rm => ModelState.update f c rm) conn m
        let e := execDML r.conn r.model r.q
        DMLResult.mk e.ok e.model e.conn (r.trace ++ e.trace)

/-- The property loop of `Model::load` (lines 83-103): for every
persistent attribute, read the row value by column name; when the
attribute is a relation attribute and the value is a `LongLong`, either
eagerly load a fresh related instance from that foreign key (replacing
the value on success and keeping the plain foreign key on failure), or
— on a lazy load — store the foreign key under the dynamic side-key
`"<name>Id"`; then write the value back through the meta-property, and
fail only when that write fails *and* the load is eager. `doLoad` is
the recursive `Model::load` call on the related instance. -/
def loadLoop (doLoad : DBConn → ModelState → Nat → Bool → Bool × ModelState)
    (conn : DBConn) (row : Row) (eagerLoad : Bool) :
    List PropDesc → ModelState → Bool × ModelState
  | [], m => (true, m)
  | d :: rest, m =>
    let dbValue := rowValue row d.name
    let step : Value × ModelState :=
      match d.related, dbValue with
      | some sch, Value.vInt fk =>
        if eagerLoad then
          let lr := doLoad conn (freshFromSchema sch) (Value.vInt fk).toUInt eagerLoad
          (if lr.1 then Value.vModel lr.2 else Value.vInt fk, m)
        else
          (Value.vInt fk, m.setProperty (d.name ++ "Id") (Value.vInt fk))
      | _, _ => (dbValue, m)
    let w := step.2.write d.name step.1
    if !w.1 && eagerLoad then (false, w.2)
    else loadLoop doLoad conn row eagerLoad rest w.2

/-- The body of `Model::load`: build and prepare the select over all
persistent attributes, execute it, fetch the first row (no row is
plain failure), then run the property loop. The iteration starts at
`metaObject()->propertyOffset()`, so the `id` property of the `Model`
base class is neither selected nor written back: `m_id` is untouched by
a load. `deeper` is the recursive `load` capability used by eager
related loads; it is checked after the row fetch, so every failure path
of the source is reproduced exactly at any positive budget. -/
def loadBody (deeper : Option (DBConn → ModelState → Nat → Bool → Bool × ModelState))
    (conn : DBConn) (m : ModelState) (i : Nat) (eagerLoad : Bool) : Bool × ModelState :=
  let text := selectText m
  if conn.prepFail.contains text then (false, m)
  else if conn.execFail.contains text then (false, m)
  else
    match conn.lookupRow m.table i with
    | none => (false, m)
    | some row =>
      match deeper with
      | none => (false, m)
      | some doLoad => loadLoop doLoad conn row eagerLoad m.descs m

/-- `Model::load` with an explicit bound on the eager recursion depth:
at every positive budget it runs `loadBody` with the recursive call,
and past the budget the related-load capability is absent (an artifact
of the fuel encoding, never reached at a sufficient budget). -/
def ModelState.load : Nat → DBConn → ModelState → Nat → Bool → Bool × ModelState
  | 0, conn, m, i, eagerLoad => loadBody none conn m i eagerLoad
  | f + 1, conn, m, i, eagerLoad =>
    loadBody (some (fun c rm ri e => ModelState.load f c rm ri e)) conn m i eagerLoad

/-- `Model::loadRelated`: fails when no dynamic side-key
`"<name>Id"` exists; otherwise reads the stored foreign key, builds a
fresh instance of the related type and loads it, failing (with the
caller untouched) when that load fails, and otherwise writing the
loaded entity into the relation attribute (the write's boolean result
is discarded by the source). When the named property does not exist or
is not a `Model` type, `createRelatedInstance` yields a null instance
which the C++ then dereferences (undefined behavior); that unreachable
corner is modelled as failure and is excluded by the hypotheses of
every theorem touching it. -/
def ModelState.loadRelated (fuel : Nat) (conn : DBConn) (m : ModelState)
    (propertyName : String) (eagerLoad : Bool) : Bool × ModelState :=
  let idPropName := propertyName ++ "Id"
  if !m.hasDynProp idPropName then (false, m)
  else
    let relatedId := (m.propertyRead idPropName).toUInt
    match m.findDesc propertyName with
    | some d =>
      match d.related with
      | some sch =>
        let lr := ModelState.load fuel conn (freshFromSchema sch) relatedId eagerLoad
        if !lr.1 then (false, m)
        else (true, (m.write propertyName (Value.vModel lr.2)).2)
      | none => (false, m)
    | none => (false, m)

/-- `Model::updateQuery` at a given recursion budget for the nested
`Model::update` calls on related entities. -/
def ModelState.updateQuery (fuel : Nat) (conn : DBConn) (m : ModelState) : BuildResult :=
  updateQueryF (fun c rm => ModelState.update fuel c rm) conn m

/-- Schema of the `Customer` example entity: one plain attribute. -/
def customerSchema : Schema :=
  Schema.mk "customers" [PropDesc.mk "name" none]

/-- Descriptors of the `Order` example entity: a plain `total` and a
relation attribute `customer`. -/
def orderDescs : List PropDesc :=
  [PropDesc.mk "total" none, PropDesc.mk "customer" (some customerSchema)]

/-- An unsaved `Customer{name="Ann"}` whose setter ran once. -/
def annCustomer : ModelState :=
  ModelState.mk 0 "customers"
    [PropSlot.mk (PropDesc.mk "name" none) (Value.vStr "Ann")] [] ["name"]

/-- An unsaved `Order{total=42, customer=annCustomer}` with both
setters run. -/
def annOrder : ModelState :=
  ModelState.mk 0 "orders"
    [PropSlot.mk (PropDesc.mk "total" none) (Value.vInt 42),
     PropSlot.mk (PropDesc.mk "customer" (some customerSchema)) (Value.vModel annCustomer)]
    [] ["total", "customer"]

/-- A fresh connection whose next autoincrement id is 7. -/
def conn7 : DBConn :=
  DBConn.mk [] [] [] 7 none

/-- A saved `Order` (id 5) with no modified property. -/
def cleanOrder : ModelState :=
  ModelState.mk 5 "orders" [] [] []

/-- A saved `Order` (id 5) whose only dirty attribute is the relation
`customer`, currently holding the unsaved `annCustomer`. -/
def dirtyRelOrder : ModelState :=
  ModelState.mk 5 "orders"
    [PropSlot.mk (PropDesc.mk "total" none) (Value.vInt 42),
     PropSlot.mk (PropDesc.mk "customer" (some customerSchema)) (Value.vModel annCustomer)]
    [] ["customer"]

/-- A connection on which executing the `annCustomer` INSERT is
rejected by the driver. -/
def connInsFail : DBConn :=
  DBConn.mk [] [] [insertText annCustomer] 7 none

/-- A connection with stored rows: `orders` row 5 has `total = 10` and
foreign key `customer = 7`; `customers` row 7 has `name = "Ann"`. -/
def rowsDB : DBConn :=
  DBConn.mk
    [("orders", 5, [("total", Value.vInt 10), ("customer", Value.vInt 7)]),
     ("customers", 7, [("name", Value.vStr "Ann")])]
    [] [] 20 none

/-- A freshly constructed `Order` instance (the benign zero-id case of
the uninitialized constructor). -/
def freshOrder : ModelState :=
  ModelState.construct 0 "orders" orderDescs

/-- A connection carrying the stale last-insert id 9 of an earlier
insert. -/
def connStale : DBConn :=
  DBConn.mk [] [] [] 20 (some 9)

/-- A saved, attribute-less model with id 3 on table `orders`. -/
def bareOrder3 : ModelState :=
  ModelState.mk 3 "orders" [] [] []

/-- The instance produced by the concrete lazy load of `orders` row 5:
it carries the side-key `customerId = 7` and an unset `customer`
attribute. -/
def afterLazy : ModelState :=
  (ModelState.load 2 rowsDB freshOrder 5 false).2

/-- `rowsDB` with a driver that cannot prepare the `Order` select. -/
def rowsDBPrepFail : DBConn :=
  { rowsDB with prepFail := [selectText freshOrder] }

/-- `rowsDB` with a driver that rejects executing the `Order` select. -/
def rowsDBExecFail : DBConn :=
  { rowsDB with execFail := [selectText freshOrder] }

/-- A connection whose `orders` row 5 lacks the `total` column, so the
write-back of that attribute receives the invalid variant and fails. -/
def rowsDBNoTotal : DBConn :=
  DBConn.mk [("orders", 5, [("customer", Value.vInt 7)])] [] [] 20 none

/-- A fresh `Customer` instance (all attributes plain). -/
def freshCustomer : ModelState :=
  freshFromSchema customerSchema

@[simp]
theorem schemaTable_mk (t : String) (ps : List PropDesc) : (Schema.mk t ps).table = t :=
  rfl

@[simp]
theorem schemaProps_mk (t : String) (ps : List PropDesc) : (Schema.mk t ps).props = ps :=
  rfl

@[simp]
theorem propDescName_mk (n : String) (r : Option Schema) : (PropDesc.mk n r).name = n :=
  rfl

@[simp]
theorem propDescRelated_mk (n : String) (r : Option Schema) :
    (PropDesc.mk n r).related = r :=
  rfl

@[simp]
theorem propSlotDesc_mk (d : PropDesc) (v : Value) : (PropSlot.mk d v).desc = d :=
  rfl

@[simp]
theorem propSlotValue_mk (d : PropDesc) (v : Value) : (PropSlot.mk d v).value = v :=
  rfl

@[simp]
theorem propSlotName_mk (d : PropDesc) (v : Value) : (PropSlot.mk d v).name = d.name :=
  rfl

@[simp]
theorem dynPropName_mk (n : String) (v : Value) : (DynProp.mk n v).name = n :=
  rfl

@[simp]
theorem dynPropValue_mk (n : String) (v : Value) : (DynProp.mk n v).value = v :=
  rfl

@[simp]
theorem modelStateId_mk (i : Nat) (t : String) (ps : List PropSlot)
    (ds : List DynProp) (ms : List String) : (ModelState.mk i t ps ds ms).m_id = i :=
  rfl

@[simp]
theorem modelStateTable_mk (i : Nat) (t : String) (ps : List PropSlot)
    (ds : List DynProp) (ms : List String) : (ModelState.mk i t ps ds ms).table = t :=
  rfl

@[simp]
theorem modelStateProps_mk (i : Nat) (t : String) (ps : List PropSlot)
    (ds : List DynProp) (ms : List String) : (ModelState.mk i t ps ds ms).props = ps :=
  rfl

@[simp]
theorem modelStateDynProps_mk (i : Nat) (t : String) (ps : List PropSlot)
    (ds : List DynProp) (ms : List String) : (ModelState.mk i t ps ds ms).dynProps = ds :=
  rfl

@[simp]
theorem modelStateModified_mk (i : Nat) (t : String) (ps : List PropSlot)
    (ds : List DynProp) (ms : List String) : (ModelState.mk i t ps ds ms).modified = ms :=
  rfl

/-- Unfolding of `ModelState.update` at a positive fuel in terms of
`ModelState.updateQuery`. -/
theorem update_succ (f : Nat) (conn : DBConn) (m : ModelState) :
    ModelState.update (f + 1) conn m =
      (if !m.isSaved then DMLResult.mk false m conn []
       else if !m.isModified then DMLResult.mk false m conn []
       else
         let r := ModelState.updateQuery f conn m
         let e := execDML r.conn r.model r.q
         DMLResult.mk e.ok e.model e.conn (r.trace ++ e.trace)) :=
  rfl

/-- C9: the claim says a freshly constructed entity always has id 0 and
reports unsaved. The constructor (Model.cpp lines 5-8) initializes only
the `QObject` base and `m_id` (Model.hpp line 148) has no initializer,
so the id after construction is the indeterminate content of its
memory: a construction whose `m_id` memory happens to hold 7 yields an
entity that reports itself saved. -/
theorem c9_constructed_id_uninitialized :
    (ModelState.construct 7 "orders" orderDescs).m_id = 7
    ∧ (ModelState.construct 7 "orders" orderDescs).isSaved = true :=
  ⟨rfl, rfl⟩

/-- C1: the claim says `insert` binds a relation attribute's related
entity id, first inserting an unsaved related entity. On
`Order{total=42, customer=Customer{name="Ann"}}` with the `Customer`
unsaved, `insertQuery` (Model.cpp lines 152-182) binds the raw
property values — the related `Model` object itself for `:customer` —
and the whole insert executes exactly one statement (the `Order`
INSERT), never persisting the `Customer`, which stays unsaved inside
the attribute. -/
theorem c1_insert_binds_related_object_not_id :
    (annOrder.insertQuery conn7).map SqlQuery.binds =
        some [(":total", Value.vInt 42), (":customer", Value.vModel annCustomer)]
    ∧ (ModelState.insert conn7 annOrder).trace = [insertText annOrder]
    ∧ (ModelState.insert conn7 annOrder).ok = true
    ∧ (ModelState.insert conn7 annOrder).model.readProp "customer"
        = Value.vModel annCustomer
    ∧ annCustomer.isSaved = false :=
  ⟨rfl, rfl, rfl, rfl, rfl⟩

/-- C2 counterexample: on a saved entity with an empty dirty set,
`update` (Model.cpp line 40-41) returns `false`, not success, while
executing no statement — refuting the claim that the no-op update
returns success. -/
theorem c2_counterexample_noop_update_fails :
    cleanOrder.isSaved = true ∧ cleanOrder.isModified = false
    ∧ ModelState.update 9 conn7 cleanOrder = DMLResult.mk false cleanOrder conn7 [] :=
  ⟨rfl, rfl, rfl⟩

/-- C2 amended: for every saved entity whose dirty set is empty,
`update` issues no statement against storage, leaves the entity and the
connection untouched, and returns `false` (the no-op is reported as a
failure, matching the method's own documentation). -/
theorem c2_noop_update_no_statement (fuel : Nat) (conn : DBConn) (m : ModelState)
    (hs : m.isSaved = true) (hm : m.isModified = false) :
    ModelState.update fuel conn m = DMLResult.mk false m conn [] := by
  cases fuel <;> simp [ModelState.update, hs, hm]

/-- C2 witness: the amended no-op behaviour at the concrete saved,
non-dirty `cleanOrder`. -/
theorem c2_witness :
    ModelState.update 3 conn7 cleanOrder = DMLResult.mk false cleanOrder conn7 [] :=
  c2_noop_update_no_statement 3 conn7 cleanOrder rfl rfl

/-- C6: `insert` on a saved entity and `update` on an unsaved entity
both fail immediately, executing no statement and leaving the entity
and the connection unchanged. -/
theorem c6_state_guards (fuel : Nat) (conn : DBConn) (m : ModelState) :
    (m.isSaved = true → ModelState.insert conn m = DMLResult.mk false m conn [])
    ∧ (m.isSaved = false → ModelState.update fuel conn m = DMLResult.mk false m conn []) := by
  constructor
  · intro h
    simp [ModelState.insert, h]
  · intro h
    cases fuel <;> simp [ModelState.update, h]

/-- C6 witness: the guards at the concrete saved `cleanOrder` and the
concrete unsaved `annOrder`. -/
theorem c6_witness :
    ModelState.insert conn7 cleanOrder = DMLResult.mk false cleanOrder conn7 []
    ∧ ModelState.update 3 conn7 annOrder = DMLResult.mk false annOrder conn7 [] :=
  ⟨(c6_state_guards 3 conn7 cleanOrder).1 rfl, (c6_state_guards 3 conn7 annOrder).2 rfl⟩

/-- Replacing a slot value keeps the dirty set. -/
theorem setSlot_modified (m : ModelState) (n : String) (v : Value) :
    (m.setSlot n v).modified = m.modified := by
  cases m
  rfl

/-- Replacing a slot value keeps the id. -/
theorem setSlot_m_id (m : ModelState) (n : String) (v : Value) :
    (m.setSlot n v).m_id = m.m_id := by
  cases m
  rfl

/-- Replacing a slot value keeps the dynamic properties. -/
theorem setSlot_dynProps (m : ModelState) (n : String) (v : Value) :
    (m.setSlot n v).dynProps = m.dynProps := by
  cases m
  rfl

/-- Replacing the dynamic property list keeps the dirty set. -/
theorem withDyn_modified (m : ModelState) (ds : List DynProp) :
    (m.withDyn ds).modified = m.modified := by
  cases m
  rfl

/-- Replacing the dynamic property list keeps the id. -/
theorem withDyn_m_id (m : ModelState) (ds : List DynProp) :
    (m.withDyn ds).m_id = m.m_id := by
  cases m
  rfl

/-- A meta-property write keeps the dirty set. -/
theorem write_modified (m : ModelState) (n : String) (v : Value) :
    ((m.write n v).2).modified = m.modified := by
  unfold ModelState.write
  cases m.props.find? (fun s => s.name == n) with
  | none => rfl
  | some s =>
    by_cases h : writable s.desc v
    · simp only [if_pos h]
      exact setSlot_modified m n v
    · simp only [if_neg h]

/-- A meta-property write keeps the id. -/
theorem write_m_id (m : ModelState) (n : String) (v : Value) :
    ((m.write n v).2).m_id = m.m_id := by
  unfold ModelState.write
  cases m.props.find? (fun s => s.name == n) with
  | none => rfl
  | some s =>
    by_cases h : writable s.desc v
    · simp only [if_pos h]
      exact setSlot_m_id m n v
    · simp only [if_neg h]

/-- `setProperty` keeps the dirty set. -/
theorem setProperty_modified (m : ModelState) (n : String) (v : Value) :
    (m.setProperty n v).modified = m.modified := by
  unfold ModelState.setProperty
  by_cases h : m.hasProp n
  · simp only [if_pos h]
    exact write_modified m n v
  · simp only [if_neg h]
    exact withDyn_modified m _

/-- `setProperty` keeps the id. -/
theorem setProperty_m_id (m : ModelState) (n : String) (v : Value) :
    (m.setProperty n v).m_id = m.m_id := by
  unfold ModelState.setProperty
  by_cases h : m.hasProp n
  · simp only [if_pos h]
    exact write_m_id m n v
  · simp only [if_neg h]
    exact withDyn_m_id m _

/-- `setId` stores the given id. -/
theorem setId_m_id (m : ModelState) (i : Nat) :
    (m.setId i).m_id = i := by
  unfold ModelState.setId
  by_cases h : i = m.m_id
  · rw [if_pos h]
    exact h.symm
  · rw [if_neg h]
    cases m
    rfl

/-- `setId` keeps the dirty set. -/
theorem setId_modified (m : ModelState) (i : Nat) :
    (m.setId i).modified = m.modified := by
  unfold ModelState.setId
  by_cases h : i = m.m_id
  · rw [if_pos h]
  · rw [if_neg h]
    cases m
    rfl

/-- `execDML` never touches the dirty set. -/
theorem execDML_modified (conn : DBConn) (m : ModelState) (q : Option SqlQuery) :
    ((execDML conn m q).model).modified = m.modified := by
  cases q with
  | none => rfl
  | some q =>
    unfold execDML
    cases h : conn.execQuery q with
    | none => simp only [h]
    | some conn1 =>
      simp only [h]
      cases h2 : conn1.lastInsert with
      | none => simp only [h2]
      | some v =>
        simp only [h2]
        exact setId_modified m v

/-- `insert` never touches the dirty set. -/
theorem insert_modified (conn : DBConn) (m : ModelState) :
    ((ModelState.insert conn m).model).modified = m.modified := by
  unfold ModelState.insert
  by_cases h : m.isSaved
  · simp only [h, Bool.not_true, if_true]
  · simp only [h, Bool.not_false, if_false]
    exact execDML_modified conn m _

/-- The binding loop of `updateQuery` never touches the outer
instance's dirty set (it only persists related instances reached
through slots). -/
theorem updateBindLoop_modified (doUpdate : DBConn → ModelState → DMLResult)
    (names : List String) :
    ∀ (conn : DBConn) (m : ModelState) (q : SqlQuery),
      ((updateBindLoop doUpdate conn m q names).model).modified = m.modified := by
  induction names with
  | nil =>
    intro conn m q
    rfl
  | cons pname rest ih =>
    intro conn m q
    simp only [updateBindLoop]
    cases hv : m.readProp pname
    case vInt n => exact ih _ _ _
    case vStr s => exact ih _ _ _
    case vInvalid => exact ih _ _ _
    case vModel rm =>
      cases h1 : rm.isSaved
      case false =>
        cases h2 : (ModelState.insert conn rm).ok
        case false => simp [h1, h2, setSlot_modified]
        case true =>
          cases h3 : ((ModelState.insert conn rm).model).isModified
          case false => simp [h1, h2, h3, ih, setSlot_modified]
          case true =>
            cases h4 : (doUpdate (ModelState.insert conn rm).conn
                (ModelState.insert conn rm).model).ok
            case false => simp [h1, h2, h3, h4, setSlot_modified]
            case true => simp [h1, h2, h3, h4, ih, setSlot_modified]
      case true =>
        cases h2 : rm.isModified
        case false => simp [h1, h2, ih]
        case true =>
          cases h3 : (doUpdate conn rm).ok
          case false => simp [h1, h2, h3, setSlot_modified]
          case true => simp [h1, h2, h3, ih, setSlot_modified]

/-- The whole `updateQuery` builder never touches the outer instance's
dirty set. -/
theorem updateQueryF_modified (doUpdate : DBConn → ModelState → DMLResult)
    (conn : DBConn) (m : ModelState) :
    ((updateQueryF doUpdate conn m).model).modified = m.modified := by
  unfold updateQueryF
  by_cases h : conn.prepFail.contains (updateText m)
  · simp only [h, if_true]
  · simp only [h, if_false]
    cases hq : (updateBindLoop doUpdate conn m (SqlQuery.mk (updateText m) []) m.modified).q
      with
    | none =>
      simp only [hq]
      exact updateBindLoop_modified doUpdate m.modified conn m _
    | some q =>
      simp only [hq]
      exact updateBindLoop_modified doUpdate m.modified conn m _

/-- C8: neither `insert` nor `update` ever clears the dirty set —
whatever the outcome, the set of modified attribute names afterwards is
exactly the set before the call, so every name dirty before a
successful update is still dirty after it and a second update re-sends
those attributes. -/
theorem c8_dirty_set_never_cleared (fuel : Nat) (conn : DBConn) (m : ModelState) :
    ((ModelState.insert conn m).model).modified = m.modified
    ∧ ((ModelState.update fuel conn m).model).modified = m.modified := by
  refine ⟨insert_modified conn m, ?_⟩
  cases fuel with
  | zero => simp [ModelState.update]
  | succ f =>
    rw [update_succ]
    by_cases h1 : m.isSaved
    · by_cases h2 : m.isModified
      · simp only [h1, h2, Bool.not_true, Bool.false_eq_true, if_false]
        calc ((execDML (ModelState.updateQuery f conn m).conn
                (ModelState.updateQuery f conn m).model
                (ModelState.updateQuery f conn m).q).model).modified
            = ((ModelState.updateQuery f conn m).model).modified :=
              execDML_modified _ _ _
          _ = m.modified := updateQueryF_modified _ conn m
      · simp only [Bool.not_eq_true] at h2
        simp [h1, h2]
    · simp only [Bool.not_eq_true] at h1
      simp [h1]

/-- After a successful `execDML`, a valid connection-level last-insert
id overwrites the instance's id. -/
theorem execDML_lastInsert_id (conn : DBConn) (m : ModelState) (q : Option SqlQuery)
    (v : Nat) (hok : (execDML conn m q).ok = true)
    (hv : (execDML conn m q).conn.lastInsert = some v) :
    (execDML conn m q).model.m_id = v := by
  unfold execDML at hok hv ⊢
  cases q with
  | none => simp at hok
  | some q =>
    cases h : conn.execQuery q with
    | none => simp [h] at hok
    | some conn1 =>
      simp only [h] at hok hv ⊢
      cases h2 : conn1.lastInsert with
      | none =>
        simp only [h2] at hv
        simp at hv
      | some w =>
        simp only [h2] at hv ⊢
        simp only [Option.some.injEq] at hv
        rw [← hv]
        exact setId_m_id m w

/-- C10: after any successful DML execution — insert, update, or
delete alike — if the connection reports a valid last-inserted id, the
entity's id is overwritten with it: `execDML` applies `setId`
unconditionally on success, so the id update is not restricted to
`insert`. -/
theorem c10_lastInsertId_overwrites_id (fuel : Nat) (conn : DBConn) (m : ModelState)
    (v : Nat) :
    ((ModelState.insert conn m).ok = true →
      (ModelState.insert conn m).conn.lastInsert = some v →
      (ModelState.insert conn m).model.m_id = v)
    ∧ ((ModelState.update fuel conn m).ok = true →
      (ModelState.update fuel conn m).conn.lastInsert = some v →
      (ModelState.update fuel conn m).model.m_id = v)
    ∧ ((m.deleteFromDatabase conn).ok = true →
      (m.deleteFromDatabase conn).conn.lastInsert = some v →
      (m.deleteFromDatabase conn).model.m_id = v) := by
  refine ⟨?_, ?_, ?_⟩
  · intro hok hv
    unfold ModelState.insert at hok hv ⊢
    by_cases h : m.isSaved
    · simp [h] at hok
    · simp only [h, Bool.false_eq_true, if_false] at hok hv ⊢
      exact execDML_lastInsert_id conn m _ v hok hv
  · intro hok hv
    cases fuel with
    | zero => simp [ModelState.update] at hok
    | succ f =>
      rw [update_succ] at hok hv ⊢
      by_cases h1 : m.isSaved
      · by_cases h2 : m.isModified
        · simp only [h1, h2, Bool.not_true, Bool.false_eq_true, if_false] at hok hv ⊢
          exact execDML_lastInsert_id _ _ _ v hok hv
        · simp only [Bool.not_eq_true] at h2
          simp [h1, h2] at hok
      · simp only [Bool.not_eq_true] at h1
        simp [h1] at hok
  · intro hok hv
    unfold ModelState.deleteFromDatabase at hok hv ⊢
    exact execDML_lastInsert_id conn m _ v hok hv

/-- C10 witness: a successful DELETE on a connection still carrying the
stale last-insert id 9 of an earlier insert overwrites the entity's id
3 with 9. -/
theorem c10_witness :
    (bareOrder3.deleteFromDatabase connStale).model.m_id = 9 :=
  (c10_lastInsertId_overwrites_id 0 connStale bareOrder3 9).2.2 rfl rfl

/-- Binding never changes the statement text. -/
theorem bindValue_text (q : SqlQuery) (k : String) (v : Value) :
    (q.bindValue k v).text = q.text := by
  unfold SqlQuery.bindValue
  by_cases h : q.binds.any (fun b => b.1 == k)
  · rw [if_pos h]
  · rw [if_neg h]

/-- Binding a non-model value keeps all bound values non-model. -/
theorem bindValue_no_model (q : SqlQuery) (k : String) (v : Value)
    (hq : ∀ b ∈ q.binds, b.2.isModel = false) (hv : v.isModel = false) :
    ∀ b ∈ (q.bindValue k v).binds, b.2.isModel = false := by
  unfold SqlQuery.bindValue
  by_cases h : q.binds.any (fun b => b.1 == k)
  · rw [if_pos h]
    intro b hb
    simp only [List.mem_map] at hb
    obtain ⟨b0, hb0, hbeq⟩ := hb
    by_cases he : (b0.1 == k) = true
    · rw [if_pos he] at hbeq
      rw [← hbeq]
      exact hv
    · rw [if_neg he] at hbeq
      rw [← hbeq]
      exact hq b0 hb0
  · rw [if_neg h]
    intro b hb
    rcases List.mem_append.mp hb with hb1 | hb2
    · exact hq b hb1
    · have hb3 : b = (k, v) := by simpa using hb2
      rw [hb3]
      exact hv

/-- Binding a fresh placeholder appends it. -/
theorem bindValue_append (q : SqlQuery) (k : String) (v : Value)
    (h : ∀ b ∈ q.binds, b.1 ≠ k) :
    (q.bindValue k v).binds = q.binds ++ [(k, v)] := by
  unfold SqlQuery.bindValue
  have hc : ¬(q.binds.any (fun b => b.1 == k) = true) := by
    intro hc
    rw [List.any_eq_true] at hc
    obtain ⟨b, hb, hbk⟩ := hc
    exact h b hb (beq_iff_eq.mp hbk)
  rw [if_neg hc]

/-- Cancelling a common string head. -/
theorem colon_cancel (a b : String) (h : ":" ++ a = ":" ++ b) : a = b := by
  have hd := congrArg String.data h
  simp only [String.data_append] at hd
  exact String.ext (List.append_cancel_left hd)

/-- The binding loop adds no model-valued binding: a dirty relation
attribute always binds the related entity's (possibly just assigned)
id, a plain attribute binds its raw non-model value. -/
theorem updateBindLoop_no_model (doUpdate : DBConn → ModelState → DMLResult)
    (names : List String) :
    ∀ (conn : DBConn) (m : ModelState) (q : SqlQuery),
      (∀ b ∈ q.binds, b.2.isModel = false) →
      ∀ q1, (updateBindLoop doUpdate conn m q names).q = some q1 →
        ∀ b ∈ q1.binds, b.2.isModel = false := by
  induction names with
  | nil =>
    intro conn m q hq q1 h1
    have h2 : some q = some q1 := h1
    injection h2 with h3
    rw [← h3]
    exact hq
  | cons pname rest ih =>
    intro conn m q hq
    simp only [updateBindLoop]
    cases hv : m.readProp pname
    case vInt n => exact ih _ _ _ (bindValue_no_model q _ _ hq rfl)
    case vStr s => exact ih _ _ _ (bindValue_no_model q _ _ hq rfl)
    case vInvalid => exact ih _ _ _ (bindValue_no_model q _ _ hq rfl)
    case vModel rm =>
      cases h1 : rm.isSaved
      case false =>
        cases h2 : (ModelState.insert conn rm).ok
        case false =>
          intro q1 hq1
          simp [h1, h2] at hq1
        case true =>
          cases h3 : ((ModelState.insert conn rm).model).isModified
          case false =>
            intro q1 hq1
            simp [h1, h2, h3] at hq1
            refine ih _ _ _ (bindValue_no_model q _ _ hq ?_) q1 hq1
            rfl
          case true =>
            cases h4 : (doUpdate (ModelState.insert conn rm).conn
                (ModelState.insert conn rm).model).ok
            case false =>
              intro q1 hq1
              simp [h1, h2, h3, h4] at hq1
            case true =>
              intro q1 hq1
              simp [h1, h2, h3, h4] at hq1
              refine ih _ _ _ (bindValue_no_model q _ _ hq ?_) q1 hq1
              rfl
      case true =>
        cases h2 : rm.isModified
        case false =>
          intro q1 hq1
          simp [h1, h2] at hq1
          refine ih _ _ _ (bindValue_no_model q _ _ hq ?_) q1 hq1
          rfl
        case true =>
          cases h3 : (doUpdate conn rm).ok
          case false =>
            intro q1 hq1
            simp [h1, h2, h3] at hq1
          case true =>
            intro q1 hq1
            simp [h1, h2, h3] at hq1
            refine ih _ _ _ (bindValue_no_model q _ _ hq ?_) q1 hq1
            rfl

/-- The whole `updateQuery` builder produces only non-model bindings. -/
theorem updateQueryF_no_model (doUpdate : DBConn → ModelState → DMLResult)
    (conn : DBConn) (m : ModelState) :
    ∀ q1, (updateQueryF doUpdate conn m).q = some q1 →
      ∀ b ∈ q1.binds, b.2.isModel = false := by
  intro q1 h1
  unfold updateQueryF at h1
  by_cases hp : conn.prepFail.contains (updateText m) = true
  · rw [if_pos hp] at h1
    simp at h1
  · rw [if_neg hp] at h1
    cases hq : (updateBindLoop doUpdate conn m (SqlQuery.mk (updateText m) [])
        m.modified).q with
    | none =>
      simp [hq] at h1
    | some qq =>
      simp only [hq] at h1
      have h2 : some (qq.bindValue ":id"
          (Value.vInt (Int.ofNat (updateBindLoop doUpdate conn m
            (SqlQuery.mk (updateText m) []) m.modified).model.m_id))) = some q1 := h1
      injection h2 with h3
      rw [← h3]
      exact bindValue_no_model qq _ _
        (updateBindLoop_no_model doUpdate m.modified conn m _ (by simp) qq hq) rfl

/-- The keys bound by the loop are exactly `:name` for the processed
names, in order, appended to the keys already bound. -/
theorem updateBindLoop_keys (doUpdate : DBConn → ModelState → DMLResult)
    (names : List String) :
    ∀ (conn : DBConn) (m : ModelState) (q : SqlQuery),
      names.Nodup →
      (∀ n ∈ names, ∀ b ∈ q.binds, b.1 ≠ ":" ++ n) →
      ∀ q1, (updateBindLoop doUpdate conn m q names).q = some q1 →
        q1.binds.map Prod.fst = q.binds.map Prod.fst ++ names.map (fun p => ":" ++ p)
        ∧ q1.text = q.text := by
  induction names with
  | nil =>
    intro conn m q hnd hfresh q1 h1
    have h2 : some q = some q1 := h1
    injection h2 with h3
    rw [← h3]
    simp
  | cons pname rest ih =>
    intro conn m q hnd hfresh
    have hfreshp : ∀ b ∈ q.binds, b.1 ≠ ":" ++ pname := hfresh pname (by simp)
    rw [List.nodup_cons] at hnd
    have hstep : ∀ (v : Value) (conn2 : DBConn) (m2 : ModelState) (q1 : SqlQuery),
        (updateBindLoop doUpdate conn2 m2 (q.bindValue (":" ++ pname) v) rest).q
            = some q1 →
          q1.binds.map Prod.fst
              = q.binds.map Prod.fst ++ (pname :: rest).map (fun p => ":" ++ p)
          ∧ q1.text = q.text := by
      intro v conn2 m2 q1 h1
      have happ := bindValue_append q (":" ++ pname) v hfreshp
      have hfresh2 : ∀ n ∈ rest, ∀ b ∈ (q.bindValue (":" ++ pname) v).binds,
          b.1 ≠ ":" ++ n := by
        intro n hn b hb
        rw [happ] at hb
        rcases List.mem_append.mp hb with hb1 | hb2
        · exact hfresh n (by simp [hn]) b hb1
        · have hb3 : b = (":" ++ pname, v) := by simpa using hb2
          rw [hb3]
          intro hcontra
          have hpn : pname = n := colon_cancel pname n hcontra
          exact hnd.1 (hpn ▸ hn)
      have hres := ih conn2 m2 _ hnd.2 hfresh2 q1 h1
      constructor
      · rw [hres.1, happ]
        simp
      · rw [hres.2, bindValue_text]
    simp only [updateBindLoop]
    cases hv : m.readProp pname
    case vInt n => exact hstep _ _ _
    case vStr s => exact hstep _ _ _
    case vInvalid => exact hstep _ _ _
    case vModel rm =>
      cases h1 : rm.isSaved
      case false =>
        cases h2 : (ModelState.insert conn rm).ok
        case false =>
          intro q1 hq1
          simp [h1, h2] at hq1
        case true =>
          cases h3 : ((ModelState.insert conn rm).model).isModified
          case false =>
            intro q1 hq1
            simp [h1, h2, h3] at hq1
            exact hstep _ _ _ q1 hq1
          case true =>
            cases h4 : (doUpdate (ModelState.insert conn rm).conn
                (ModelState.insert conn rm).model).ok
            case false =>
              intro q1 hq1
              simp [h1, h2, h3, h4] at hq1
            case true =>
              intro q1 hq1
              simp [h1, h2, h3, h4] at hq1
              exact hstep _ _ _ q1 hq1
      case true =>
        cases h2 : rm.isModified
        case false =>
          intro q1 hq1
          simp [h1, h2] at hq1
          exact hstep _ _ _ q1 hq1
        case true =>
          cases h3 : (doUpdate conn rm).ok
          case false =>
            intro q1 hq1
            simp [h1, h2, h3] at hq1
          case true =>
            intro q1 hq1
            simp [h1, h2, h3] at hq1
            exact hstep _ _ _ q1 hq1

/-- Executing a valid query always traces exactly its text. -/
theorem execDML_some_trace (conn : DBConn) (m : ModelState) (q1 : SqlQuery) :
    (execDML conn m (some q1)).trace = [q1.text] := by
  unfold execDML
  cases h : conn.execQuery q1 with
  | none => simp only [h]
  | some conn1 =>
    simp only [h]
    cases h2 : conn1.lastInsert with
    | none => simp only [h2]
    | some v => simp only [h2]

/-- A failed prepare of an unsaved entity's INSERT aside, `insert`
executes exactly the entity's INSERT text. -/
theorem insert_unsaved_trace (conn : DBConn) (rm : ModelState)
    (h1 : rm.isSaved = false)
    (h2 : conn.prepFail.contains (insertText rm) = false) :
    (ModelState.insert conn rm).trace = [insertText rm] := by
  unfold ModelState.insert
  simp only [h1, Bool.false_eq_true, if_false]
  unfold ModelState.insertQuery
  have hc : ¬(conn.prepFail.contains (insertText rm) = true) := by
    rw [h2]
    simp
  rw [if_neg hc]
  exact execDML_some_trace conn rm _

/-- C4: on a saved, dirty entity, the update builder persists a dirty
relation attribute's related entity before the outer statement runs and
binds only plain values (ids for relation attributes, never the related
object); if the builder aborts because a recursive persist failed, the
whole update fails with exactly the recursion's statements executed —
the outer statement is never handed to the driver — and on a successful
build the outer statement is executed last; with a single dirty
relation attribute holding an unsaved related entity, the first
statement executed is that entity's INSERT. -/
theorem c4_update_persists_relation_first (f : Nat) (conn : DBConn) (m : ModelState)
    (hs : m.isSaved = true) (hm : m.isModified = true) :
    (∀ q1, (ModelState.updateQuery f conn m).q = some q1 →
        ∀ b ∈ q1.binds, b.2.isModel = false)
    ∧ ((ModelState.updateQuery f conn m).q = none →
        ModelState.update (f + 1) conn m =
          DMLResult.mk false (ModelState.updateQuery f conn m).model
            (ModelState.updateQuery f conn m).conn
            (ModelState.updateQuery f conn m).trace)
    ∧ (∀ q1, (ModelState.updateQuery f conn m).q = some q1 →
        (ModelState.update (f + 1) conn m).trace =
          (ModelState.updateQuery f conn m).trace ++ [q1.text])
    ∧ (∀ pname rm, m.modified = [pname] → m.readProp pname = Value.vModel rm →
        rm.isSaved = false →
        conn.prepFail.contains (updateText m) = false →
        conn.prepFail.contains (insertText rm) = false →
        ((ModelState.updateQuery f conn m).trace).head? = some (insertText rm)) := by
  refine ⟨?_, ?_, ?_, ?_⟩
  · exact fun q1 h1 => updateQueryF_no_model _ conn m q1 h1
  · intro hnone
    rw [update_succ]
    simp only [hs, hm, Bool.not_true, Bool.false_eq_true, if_false]
    rw [hnone]
    simp [execDML]
  · intro q1 h1
    rw [update_succ]
    simp only [hs, hm, Bool.not_true, Bool.false_eq_true, if_false]
    rw [h1]
    simp [execDML_some_trace]
  · intro pname rm hmod hread hrms hpout hpin
    unfold ModelState.updateQuery updateQueryF
    have hpc : ¬(conn.prepFail.contains (updateText m) = true) := by
      rw [hpout]
      simp
    rw [if_neg hpc, hmod]
    have hins := insert_unsaved_trace conn rm hrms hpin
    simp only [updateBindLoop, hread, hrms]
    cases h2 : (ModelState.insert conn rm).ok
    case false => simp [hins]
    case true =>
      cases h3 : ((ModelState.insert conn rm).model).isModified
      case false => simp [hins]
      case true =>
        cases h4 : (ModelState.update f (ModelState.insert conn rm).conn
            (ModelState.insert conn rm).model).ok
        case false => simp [hins]
        case true => simp [hins]

/-- C4 witness: with the saved, dirty `dirtyRelOrder` whose only dirty
attribute holds the unsaved `annCustomer`, a connection on which the
customer INSERT is rejected makes the whole update fail with only the
attempted customer INSERT executed; on a working connection the first
executed statement is the customer INSERT. -/
theorem c4_witness :
    ModelState.update 9 connInsFail dirtyRelOrder =
      DMLResult.mk false (ModelState.updateQuery 8 connInsFail dirtyRelOrder).model
        (ModelState.updateQuery 8 connInsFail dirtyRelOrder).conn
        (ModelState.updateQuery 8 connInsFail dirtyRelOrder).trace
    ∧ ((ModelState.updateQuery 8 conn7 dirtyRelOrder).trace).head?
        = some (insertText annCustomer) := by
  constructor
  · exact (c4_update_persists_relation_first 8 connInsFail dirtyRelOrder rfl rfl).2.1 rfl
  · exact (c4_update_persists_relation_first 8 conn7 dirtyRelOrder rfl rfl).2.2.2
      "customer" annCustomer rfl rfl rfl rfl rfl

/-- C5: on a saved, dirty entity whose dirty names are duplicate-free
and do not contain `id`, the statement the update builder produces is
exactly the UPDATE text rendered from the dirty set, and its bound
placeholders are exactly `:name` for each dirty name plus the `:id` of
the WHERE clause — no attribute outside the dirty set is bound or
written — and that statement is precisely the one `update` then
executes. -/
theorem c5_update_writes_exactly_dirty_set (f : Nat) (conn : DBConn) (m : ModelState)
    (hs : m.isSaved = true) (hm : m.isModified = true)
    (hnd : m.modified.Nodup) (hid : "id" ∉ m.modified) :
    (∀ q1, (ModelState.updateQuery f conn m).q = some q1 →
        q1.text = updateText m
        ∧ q1.binds.map Prod.fst = m.modified.map (fun p => ":" ++ p) ++ [":id"])
    ∧ (∀ q1, (ModelState.updateQuery f conn m).q = some q1 →
        (ModelState.update (f + 1) conn m).trace =
          (ModelState.updateQuery f conn m).trace ++ [q1.text]) := by
  constructor
  · intro q1 h1
    unfold ModelState.updateQuery updateQueryF at h1
    by_cases hp : conn.prepFail.contains (updateText m) = true
    · rw [if_pos hp] at h1
      simp at h1
    · rw [if_neg hp] at h1
      cases hq : (updateBindLoop (fun c rm => ModelState.update f c rm) conn m
          (SqlQuery.mk (updateText m) []) m.modified).q with
      | none =>
        simp [hq] at h1
      | some qq =>
        simp only [hq] at h1
        have hkeys := updateBindLoop_keys (fun c rm => ModelState.update f c rm)
          m.modified conn m (SqlQuery.mk (updateText m) []) hnd (by simp) qq hq
        have hfreshid : ∀ b ∈ qq.binds, b.1 ≠ ":id" := by
          intro b hb hcontra
          have hbk : b.1 ∈ qq.binds.map Prod.fst := List.mem_map_of_mem Prod.fst hb
          rw [hkeys.1] at hbk
          simp only [List.map_nil, List.nil_append, List.mem_map] at hbk
          obtain ⟨p, hp2, hpe⟩ := hbk
          have : p = "id" := by
            apply colon_cancel
            rw [hpe, hcontra]
            rfl
          exact hid (this ▸ hp2)
        have happ := bindValue_append qq ":id"
          (Value.vInt (Int.ofNat (updateBindLoop (fun c rm => ModelState.update f c rm)
            conn m (SqlQuery.mk (updateText m) []) m.modified).model.m_id)) hfreshid
        have h2 : some (qq.bindValue ":id"
            (Value.vInt (Int.ofNat (updateBindLoop (fun c rm => ModelState.update f c rm)
              conn m (SqlQuery.mk (updateText m) []) m.modified).model.m_id))) = some q1 :=
          h1
        injection h2 with h3
        rw [← h3]
        constructor
        · rw [bindValue_text]
          exact hkeys.2
        · rw [happ]
          simp only [List.map_append, hkeys.1]
          simp
  · intro q1 h1
    rw [update_succ]
    simp only [hs, hm, Bool.not_true, Bool.false_eq_true, if_false]
    rw [h1]
    simp [execDML_some_trace]

/-- C5 witness: for the saved `dirtyRelOrder` with dirty set
`["customer"]`, the built statement's text is the rendered UPDATE and
its bound placeholders are exactly `:customer` and `:id`. -/
theorem c5_witness :
    ((ModelState.updateQuery 1 conn7 dirtyRelOrder).q.map SqlQuery.text)
        = some (updateText dirtyRelOrder)
    ∧ ((ModelState.updateQuery 1 conn7 dirtyRelOrder).q.map
        (fun q => q.binds.map Prod.fst)) = some [":customer", ":id"] := by
  have h := (c5_update_writes_exactly_dirty_set 1 conn7 dirtyRelOrder rfl rfl
    (by decide) (by decide)).1
  cases hq : (ModelState.updateQuery 1 conn7 dirtyRelOrder).q with
  | none =>
    have hsome : (ModelState.updateQuery 1 conn7 dirtyRelOrder).q.isSome = true := rfl
    rw [hq] at hsome
    simp at hsome
  | some q1 =>
    have h2 := h q1 hq
    constructor
    · show some q1.text = some (updateText dirtyRelOrder)
      rw [h2.1]
    · show some (q1.binds.map Prod.fst) = some [":customer", ":id"]
      rw [h2.2]
      rfl

/-- Looking a dynamic property up right after setting it. -/
theorem dynSet_lookup_self (ds : List DynProp) (k : String) (v : Value) :
    dynLookup (dynSet ds k v) k = some v := by
  induction ds with
  | nil => simp [dynSet, dynLookup]
  | cons d rest ih =>
    by_cases h : d.name == k
    · simp [dynSet, dynLookup, h]
    · simp only [dynSet, dynLookup, h, Bool.false_eq_true, if_false]
      simpa [dynLookup, h] using ih

/-- Setting one dynamic property leaves the others readable unchanged. -/
theorem dynSet_lookup_ne (ds : List DynProp) (k K : String) (v : Value)
    (hne : k ≠ K) :
    dynLookup (dynSet ds k v) K = dynLookup ds K := by
  induction ds with
  | nil =>
    simp only [dynSet, dynLookup]
    simp [hne]
  | cons d rest ih =>
    by_cases h : d.name == k
    · have hd : d.name = k := beq_iff_eq.mp h
      simp [dynSet, dynLookup, h, hd, hne]
    · simp only [dynSet, h, Bool.false_eq_true, if_false]
      by_cases h2 : d.name == K
      · simp [dynLookup, h2]
      · simp [dynLookup, h2, ih]

/-- A dynamic property that can be looked up is listed among the
dynamic property names. -/
theorem dynLookup_any (ds : List DynProp) (k : String) (v : Value)
    (h : dynLookup ds k = some v) :
    ds.any (fun d => d.name == k) = true := by
  induction ds with
  | nil => simp [dynLookup] at h
  | cons d rest ih =>
    by_cases h2 : d.name == k
    · simp [h2]
    · simp only [dynLookup, h2, Bool.false_eq_true, if_false] at h
      simp [h2, ih h]

/-- Replacing a slot value keeps every slot's descriptor and name:
the find-and-project-descriptor view is unchanged. -/
theorem setSlotValue_find_desc (ps : List PropSlot) (n x : String) (v : Value) :
    ((setSlotValue ps n v).find? (fun s => s.name == x)).map PropSlot.desc
      = (ps.find? (fun s => s.name == x)).map PropSlot.desc := by
  induction ps with
  | nil => rfl
  | cons s rest ih =>
    by_cases hn : s.name == n
    · simp only [setSlotValue, hn, if_true]
      by_cases hx : s.name == x
      · have hname : (PropSlot.mk s.desc v).name = s.name := rfl
        simp [List.find?, hname, hx]
      · have hname : (PropSlot.mk s.desc v).name = s.name := rfl
        simp [List.find?, hname, hx]
    · simp only [setSlotValue, hn, Bool.false_eq_true, if_false]
      by_cases hx : s.name == x
      · simp [List.find?, hx]
      · simp [List.find?, hx, ih]

/-- Replacing a slot value keeps the property-name test. -/
theorem setSlotValue_any_name (ps : List PropSlot) (n x : String) (v : Value) :
    (setSlotValue ps n v).any (fun s => s.name == x)
      = ps.any (fun s => s.name == x) := by
  induction ps with
  | nil => rfl
  | cons s rest ih =>
    by_cases hn : s.name == n
    · have hname : (PropSlot.mk s.desc v).name = s.name := rfl
      simp [setSlotValue, hn, hname]
    · simp [setSlotValue, hn, ih]

/-- Replacing one slot's value leaves the others readable unchanged. -/
theorem setSlotValue_find_ne (ps : List PropSlot) (n x : String) (v : Value)
    (hne : n ≠ x) :
    (setSlotValue ps n v).find? (fun s => s.name == x)
      = ps.find? (fun s => s.name == x) := by
  induction ps with
  | nil => rfl
  | cons s rest ih =>
    by_cases hn : s.name == n
    · have hd : s.name = n := beq_iff_eq.mp hn
      have hx : (s.name == x) = false := by
        simp [hd, hne]
      have hname : (PropSlot.mk s.desc v).name = s.name := rfl
      simp only [setSlotValue, hn, if_true]
      simp [List.find?, hname, hx]
    · simp only [setSlotValue, hn, Bool.false_eq_true, if_false]
      by_cases hx : s.name == x
      · simp [List.find?, hx]
      · simp [List.find?, hx, ih]

/-- Replacing the first slot with a name replaces exactly the found
slot's value. -/
theorem setSlotValue_find_self (ps : List PropSlot) (n : String) (v : Value)
    (s : PropSlot) (h : ps.find? (fun t => t.name == n) = some s) :
    (setSlotValue ps n v).find? (fun t => t.name == n)
      = some (PropSlot.mk s.desc v) := by
  induction ps with
  | nil => simp [List.find?] at h
  | cons t rest ih =>
    by_cases hn : t.name == n
    · simp only [List.find?, hn] at h
      injection h with h2
      rw [← h2]
      have hname : (PropSlot.mk t.desc v).name = t.name := rfl
      simp [setSlotValue, hn, List.find?, hname]
    · simp only [List.find?, hn, Bool.false_eq_true, if_false] at h  -- hmm find? shape
      simp only [setSlotValue, hn, Bool.false_eq_true, if_false]
      simp only [List.find?, hn]
      exact ih h

/-- A meta-property write keeps the dynamic properties. -/
theorem write_dynProps (m : ModelState) (n : String) (v : Value) :
    ((m.write n v).2).dynProps = m.dynProps := by
  unfold ModelState.write
  cases m.props.find? (fun s => s.name == n) with
  | none => rfl
  | some s =>
    by_cases h : writable s.desc v
    · simp only [if_pos h]
      exact setSlot_dynProps m n v
    · simp only [if_neg h]

/-- A meta-property write keeps every descriptor lookup. -/
theorem write_findDesc (m : ModelState) (n x : String) (v : Value) :
    ((m.write n v).2).findDesc x = m.findDesc x := by
  unfold ModelState.write
  cases m.props.find? (fun s => s.name == n) with
  | none => rfl
  | some s =>
    by_cases h : writable s.desc v
    · simp only [if_pos h]
      unfold ModelState.findDesc ModelState.setSlot
      cases m
      exact setSlotValue_find_desc _ n x v
    · simp only [if_neg h]

/-- A meta-property write keeps the declared-property-name test. -/
theorem write_hasProp (m : ModelState) (n x : String) (v : Value) :
    ((m.write n v).2).hasProp x = m.hasProp x := by
  unfold ModelState.write
  cases m.props.find? (fun s => s.name == n) with
  | none => rfl
  | some s =>
    by_cases h : writable s.desc v
    · simp only [if_pos h]
      unfold ModelState.hasProp ModelState.setSlot
      cases m
      exact setSlotValue_any_name _ n x v
    · simp only [if_neg h]

/-- `withProps` keeps everything except the slots. -/
theorem withProps_props (m : ModelState) (ps : List PropSlot) :
    (m.withProps ps).props = ps := by
  cases m
  rfl

/-- `withDyn` keeps every declared property readable unchanged. -/
theorem readProp_withDyn (m : ModelState) (ds : List DynProp) (x : String) :
    (m.withDyn ds).readProp x = m.readProp x := by
  cases m
  rfl

/-- A meta-property write leaves every other property readable
unchanged. -/
theorem write_readProp_ne (m : ModelState) (n x : String) (v : Value)
    (hne : n ≠ x) :
    ((m.write n v).2).readProp x = m.readProp x := by
  unfold ModelState.write
  cases m.props.find? (fun s => s.name == n) with
  | none => rfl
  | some s =>
    by_cases h : writable s.desc v
    · simp only [if_pos h]
      unfold ModelState.readProp ModelState.setSlot
      rw [withProps_props]
      rw [setSlotValue_find_ne _ n x v hne]
    · simp only [if_neg h]

/-- A successful meta-property write is observable through a read. -/
theorem write_readProp_self (m : ModelState) (n : String) (v : Value)
    (d : PropDesc) (hfd : m.findDesc n = some d) (hw : writable d v = true) :
    (m.write n v).1 = true ∧ ((m.write n v).2).readProp n = v := by
  unfold ModelState.findDesc at hfd
  unfold ModelState.write
  cases hfind : m.props.find? (fun s => s.name == n) with
  | none =>
    rw [hfind] at hfd
    simp at hfd
  | some s =>
    rw [hfind] at hfd
    have hsd : s.desc = d := by
      simpa using hfd
    show (if writable s.desc v = true then (true, m.setSlot n v) else (false, m)).1 = true
      ∧ (if writable s.desc v = true then (true, m.setSlot n v) else (false, m)).2.readProp n
          = v
    rw [hsd, if_pos hw]
    constructor
    · rfl
    · unfold ModelState.readProp ModelState.setSlot
      rw [withProps_props]
      rw [setSlotValue_find_self _ n v s hfind]
      simp [hsd]

/-- `setProperty` on a name that is not a declared property: it stores
the dynamic property and touches nothing else. -/
theorem setProperty_dyn (m : ModelState) (n : String) (v : Value)
    (h : m.hasProp n = false) :
    (m.setProperty n v).dynProps = dynSet m.dynProps n v
    ∧ (m.setProperty n v).props = m.props := by
  unfold ModelState.setProperty
  rw [h]
  simp only [Bool.false_eq_true, if_false]
  cases m
  exact ⟨rfl, rfl⟩

/-- `setProperty` keeps the declared-property-name test. -/
theorem setProperty_hasProp (m : ModelState) (n x : String) (v : Value) :
    (m.setProperty n v).hasProp x = m.hasProp x := by
  unfold ModelState.setProperty
  by_cases h : m.hasProp n
  · simp only [if_pos h]
    exact write_hasProp m n x v
  · simp only [if_neg h]
    unfold ModelState.hasProp
    cases m
    rfl

/-- `setProperty` keeps every descriptor lookup. -/
theorem setProperty_findDesc (m : ModelState) (n x : String) (v : Value) :
    (m.setProperty n v).findDesc x = m.findDesc x := by
  unfold ModelState.setProperty
  by_cases h : m.hasProp n
  · simp only [if_pos h]
    exact write_findDesc m n x v
  · simp only [if_neg h]
    unfold ModelState.findDesc
    cases m
    rfl

/-- `setProperty` on a non-declared name leaves every declared
property readable unchanged. -/
theorem setProperty_dyn_readProp (m : ModelState) (n x : String) (v : Value)
    (h : m.hasProp n = false) :
    (m.setProperty n v).readProp x = m.readProp x := by
  unfold ModelState.setProperty
  rw [h]
  simp only [Bool.false_eq_true, if_false]
  exact readProp_withDyn m _ x

/-- `setProperty` keeps the dynamic properties when the name is a
declared property (the write goes to the slot). -/
theorem setProperty_static_dynProps (m : ModelState) (n : String) (v : Value)
    (h : m.hasProp n = true) :
    (m.setProperty n v).dynProps = m.dynProps := by
  unfold ModelState.setProperty
  rw [h]
  simp only [if_true]
  exact write_dynProps m n v

/-- Cancelling the common `Id` suffix of side-keys. -/
theorem id_suffix_cancel (a b : String) (h : a ++ "Id" = b ++ "Id") : a = b := by
  have hd := congrArg String.data h
  simp only [String.data_append] at hd
  exact String.ext (List.append_cancel_right hd)

/-- A write rejected by the property's type leaves the instance
untouched and reports failure. -/
theorem write_fail_eq (m : ModelState) (n : String) (v : Value) (d : PropDesc)
    (hfd : m.findDesc n = some d) (hw : writable d v = false) :
    m.write n v = (false, m) := by
  unfold ModelState.findDesc at hfd
  unfold ModelState.write
  cases hfind : m.props.find? (fun s => s.name == n) with
  | none =>
    rw [hfind] at hfd
  | some s =>
    rw [hfind] at hfd
    have hsd : s.desc = d := by
      simpa using hfd
    show (if writable s.desc v = true then (true, m.setSlot n v) else (false, m)) = (false, m)
    rw [hsd, hw]
    simp

/-- The property loop of `load` never touches `m_id` (the id property
of the base class is outside the iterated range). -/
theorem loadLoop_m_id (doLoad : DBConn → ModelState → Nat → Bool → Bool × ModelState)
    (conn : DBConn) (row : Row) (ds : List PropDesc) :
    ∀ (e : Bool) (m : ModelState), ((loadLoop doLoad conn row e ds m).2).m_id = m.m_id := by
  induction ds with
  | nil =>
    intro e m
    rfl
  | cons d rest ih =>
    intro e m
    simp only [loadLoop]
    cases hrel : d.related
    case none =>
      by_cases hw : ((m.write d.name (rowValue row d.name)).1)
      · simp [hrel, hw, write_m_id, ih]
      · simp only [Bool.not_eq_true] at hw
        cases he : e <;> simp [hrel, hw, he, write_m_id, ih]
    case some sch =>
      cases hdb : rowValue row d.name
      case vInt fk =>
        cases he : e
        case false =>
          simp [hrel, hdb, he, write_m_id, setProperty_m_id, ih]
        case true =>
          by_cases hw : (((m.write d.name (if (doLoad conn (freshFromSchema sch)
              (Value.vInt fk).toUInt true).1
            then Value.vModel (doLoad conn (freshFromSchema sch)
              (Value.vInt fk).toUInt true).2
            else Value.vInt fk))).1)
          · simp [hrel, hdb, he, hw, write_m_id, ih]
          · simp only [Bool.not_eq_true] at hw
            simp [hrel, hdb, he, hw, write_m_id, ih]
      case vStr s =>
        by_cases hw : ((m.write d.name (Value.vStr s)).1)
        · simp [hrel, hdb, hw, write_m_id, ih]
        · simp only [Bool.not_eq_true] at hw
          cases he : e <;> simp [hrel, hdb, hw, he, write_m_id, ih]
      case vModel rm =>
        by_cases hw : ((m.write d.name (Value.vModel rm)).1)
        · simp [hrel, hdb, hw, write_m_id, ih]
        · simp only [Bool.not_eq_true] at hw
          cases he : e <;> simp [hrel, hdb, hw, he, write_m_id, ih]
      case vInvalid =>
        by_cases hw : ((m.write d.name Value.vInvalid).1)
        · simp [hrel, hdb, hw, write_m_id, ih]
        · simp only [Bool.not_eq_true] at hw
          cases he : e <;> simp [hrel, hdb, hw, he, write_m_id, ih]

/-- A lazy property loop always reports success: the write-back
failure exit requires an eager load. -/
theorem loadLoop_lazy_ok (doLoad : DBConn → ModelState → Nat → Bool → Bool × ModelState)
    (conn : DBConn) (row : Row) (ds : List PropDesc) :
    ∀ m : ModelState, (loadLoop doLoad conn row false ds m).1 = true := by
  induction ds with
  | nil =>
    intro m
    rfl
  | cons d rest ih =>
    intro m
    simp only [loadLoop]
    simp [ih]

/-- A lazy property loop touches only the side-keys and slots of the
attributes it iterates: any dynamic key and any declared property
outside the iterated names are left unchanged. -/
theorem loadLoop_lazy_preserves
    (doLoad : DBConn → ModelState → Nat → Bool → Bool × ModelState)
    (conn : DBConn) (row : Row) (ds : List PropDesc) :
    ∀ (m : ModelState) (K N : String),
      (∀ d ∈ ds, m.hasProp (d.name ++ "Id") = false) →
      (∀ d ∈ ds, d.name ≠ N) →
      (∀ d ∈ ds, d.name ++ "Id" ≠ K) →
      dynLookup ((loadLoop doLoad conn row false ds m).2).dynProps K
          = dynLookup m.dynProps K
      ∧ ((loadLoop doLoad conn row false ds m).2).readProp N = m.readProp N := by
  induction ds with
  | nil =>
    intro m K N h1 h2 h3
    exact ⟨rfl, rfl⟩
  | cons d rest ih =>
    intro m K N h1 h2 h3
    have h1d : m.hasProp (d.name ++ "Id") = false := h1 d (by simp)
    have h2d : d.name ≠ N := h2 d (by simp)
    have h3d : d.name ++ "Id" ≠ K := h3 d (by simp)
    have h1r : ∀ x ∈ rest, m.hasProp (x.name ++ "Id") = false :=
      fun x hx => h1 x (by simp [hx])
    have h2r : ∀ x ∈ rest, x.name ≠ N := fun x hx => h2 x (by simp [hx])
    have h3r : ∀ x ∈ rest, x.name ++ "Id" ≠ K := fun x hx => h3 x (by simp [hx])
    have hW : ∀ (m2 : ModelState) (v : Value),
        (∀ x ∈ rest, m2.hasProp (x.name ++ "Id") = false) →
        dynLookup m2.dynProps K = dynLookup m.dynProps K →
        m2.readProp N = m.readProp N →
        dynLookup ((loadLoop doLoad conn row false rest
            (m2.write d.name v).2).2).dynProps K = dynLookup m.dynProps K
        ∧ ((loadLoop doLoad conn row false rest
            (m2.write d.name v).2).2).readProp N = m.readProp N := by
      intro m2 v hh hdk hrn
      obtain ⟨ihd, ihr⟩ := ih (m2.write d.name v).2 K N
        (fun x hx => by rw [write_hasProp]; exact hh x hx) h2r h3r
      constructor
      · rw [ihd, write_dynProps, hdk]
      · rw [ihr, write_readProp_ne m2 d.name N v h2d, hrn]
    simp only [loadLoop]
    cases hrel : d.related
    case none =>
      cases hdb : rowValue row d.name
      case vInt fk =>
        simp only [hrel, hdb]
        simp
        exact hW m _ h1r rfl rfl
      case vStr s =>
        simp only [hrel, hdb]
        simp
        exact hW m _ h1r rfl rfl
      case vModel rm =>
        simp only [hrel, hdb]
        simp
        exact hW m _ h1r rfl rfl
      case vInvalid =>
        simp only [hrel, hdb]
        simp
        exact hW m _ h1r rfl rfl
    case some sch =>
      cases hdb : rowValue row d.name
      case vInt fk =>
        simp only [hrel, hdb]
        simp
        exact hW (m.setProperty (d.name ++ "Id") (Value.vInt fk)) _
          (fun x hx => by rw [setProperty_hasProp]; exact h1r x hx)
          (by rw [(setProperty_dyn m _ _ h1d).1, dynSet_lookup_ne _ _ _ _ h3d])
          (setProperty_dyn_readProp m _ N _ h1d)
      case vStr s =>
        simp only [hrel, hdb]
        simp
        exact hW m _ h1r rfl rfl
      case vModel rm =>
        simp only [hrel, hdb]
        simp
        exact hW m _ h1r rfl rfl
      case vInvalid =>
        simp only [hrel, hdb]
        simp
        exact hW m _ h1r rfl rfl

/-- A relation attribute's type never accepts a plain integer. -/
theorem writable_rel_int (p : PropDesc) (sch : Schema) (fk : Int)
    (hrel : p.related = some sch) :
    writable p (Value.vInt fk) = false := by
  unfold writable
  rw [hrel]

/-- On a lazy load, the property loop stores the foreign-key integer of
a relation attribute under the dynamic side-key `"<name>Id"` and leaves
the relation attribute itself unchanged (its write-back is rejected by
the property type and the failure is ignored). -/
theorem loadLoop_lazy_sidekey
    (doLoad : DBConn → ModelState → Nat → Bool → Bool × ModelState)
    (conn : DBConn) (row : Row) (ds : List PropDesc) :
    ∀ (m : ModelState) (p : PropDesc) (sch : Schema) (fk : Int),
      p ∈ ds →
      (ds.map PropDesc.name).Nodup →
      p.related = some sch →
      rowValue row p.name = Value.vInt fk →
      m.findDesc p.name = some p →
      (∀ d ∈ ds, m.hasProp (d.name ++ "Id") = false) →
      dynLookup ((loadLoop doLoad conn row false ds m).2).dynProps (p.name ++ "Id")
          = some (Value.vInt fk)
      ∧ ((loadLoop doLoad conn row false ds m).2).readProp p.name
          = m.readProp p.name := by
  induction ds with
  | nil =>
    intro m p sch fk hp
    simp at hp
  | cons d rest ih =>
    intro m p sch fk hp hnd hrel hrow hfd hfresh
    simp only [List.map_cons, List.nodup_cons] at hnd
    rcases List.mem_cons.mp hp with hpd | hpr
    · subst hpd
      have h1d : m.hasProp (p.name ++ "Id") = false := hfresh p (by simp)
      have hwf : (m.setProperty (p.name ++ "Id") (Value.vInt fk)).write p.name
          (Value.vInt fk) = (false, m.setProperty (p.name ++ "Id") (Value.vInt fk)) :=
        write_fail_eq _ p.name (Value.vInt fk) p
          (by rw [setProperty_findDesc]; exact hfd)
          (writable_rel_int p sch fk hrel)
      have hB : ∀ x ∈ rest, x.name ≠ p.name := by
        intro x hx hcs
        exact hnd.1 (hcs ▸ List.mem_map_of_mem PropDesc.name hx)
      have hC : ∀ x ∈ rest, x.name ++ "Id" ≠ p.name ++ "Id" := by
        intro x hx hcs
        exact hB x hx (id_suffix_cancel _ _ hcs)
      have hA : ∀ x ∈ rest,
          (m.setProperty (p.name ++ "Id") (Value.vInt fk)).hasProp (x.name ++ "Id")
            = false := by
        intro x hx
        rw [setProperty_hasProp]
        exact hfresh x (by simp [hx])
      obtain ⟨pd, pr⟩ := loadLoop_lazy_preserves doLoad conn row rest
        (m.setProperty (p.name ++ "Id") (Value.vInt fk)) (p.name ++ "Id") p.name
        hA hB hC
      simp only [loadLoop]
      simp [hrel, hrow, hwf]
      constructor
      · rw [pd, (setProperty_dyn m _ _ h1d).1, dynSet_lookup_self]
      · rw [pr, setProperty_dyn_readProp m _ _ _ h1d]
    · have hdnp : d.name ≠ p.name := by
        intro hcs
        exact hnd.1 (hcs ▸ List.mem_map_of_mem PropDesc.name hpr)
      have h1d : m.hasProp (d.name ++ "Id") = false := hfresh d (by simp)
      have h1r : ∀ x ∈ rest, m.hasProp (x.name ++ "Id") = false :=
        fun x hx => hfresh x (by simp [hx])
      have hW : ∀ (m2 : ModelState) (v : Value),
          (∀ x ∈ rest, m2.hasProp (x.name ++ "Id") = false) →
          m2.findDesc p.name = some p →
          m2.readProp p.name = m.readProp p.name →
          dynLookup ((loadLoop doLoad conn row false rest
              (m2.write d.name v).2).2).dynProps (p.name ++ "Id")
              = some (Value.vInt fk)
          ∧ ((loadLoop doLoad conn row false rest
              (m2.write d.name v).2).2).readProp p.name = m.readProp p.name := by
        intro m2 v hh hf2 hr2
        obtain ⟨ihd, ihr⟩ := ih (m2.write d.name v).2 p sch fk hpr hnd.2 hrel hrow
          (by rw [write_findDesc]; exact hf2)
          (fun x hx => by rw [write_hasProp]; exact hh x hx)
        constructor
        · exact ihd
        · rw [ihr, write_readProp_ne m2 d.name p.name v hdnp, hr2]
      simp only [loadLoop]
      cases hrel2 : d.related
      case none =>
        cases hdb2 : rowValue row d.name
        case vInt fk2 =>
          simp only [hrel2, hdb2]
          simp
          exact hW m _ h1r hfd rfl
        case vStr s =>
          simp only [hrel2, hdb2]
          simp
          exact hW m _ h1r hfd rfl
        case vModel rm =>
          simp only [hrel2, hdb2]
          simp
          exact hW m _ h1r hfd rfl
        case vInvalid =>
          simp only [hrel2, hdb2]
          simp
          exact hW m _ h1r hfd rfl
      case some sch2 =>
        cases hdb2 : rowValue row d.name
        case vInt fk2 =>
          simp only [hrel2, hdb2]
          simp
          exact hW (m.setProperty (d.name ++ "Id") (Value.vInt fk2)) _
            (fun x hx => by rw [setProperty_hasProp]; exact h1r x hx)
            (by rw [setProperty_findDesc]; exact hfd)
            (setProperty_dyn_readProp m _ _ _ h1d)
        case vStr s =>
          simp only [hrel2, hdb2]
          simp
          exact hW m _ h1r hfd rfl
        case vModel rm =>
          simp only [hrel2, hdb2]
          simp
          exact hW m _ h1r hfd rfl
        case vInvalid =>
          simp only [hrel2, hdb2]
          simp
          exact hW m _ h1r hfd rfl

/-- The property loop leaves every declared property outside the
iterated names readable unchanged, in either mode (all dynamic
side-key writes stay dynamic under the freshness hypothesis). -/
theorem loadLoop_preserves_readProp
    (doLoad : DBConn → ModelState → Nat → Bool → Bool × ModelState)
    (conn : DBConn) (row : Row) (ds : List PropDesc) :
    ∀ (e : Bool) (m : ModelState) (N : String),
      (∀ d ∈ ds, m.hasProp (d.name ++ "Id") = false) →
      (∀ d ∈ ds, d.name ≠ N) →
      ((loadLoop doLoad conn row e ds m).2).readProp N = m.readProp N := by
  induction ds with
  | nil =>
    intro e m N h1 h2
    rfl
  | cons d rest ih =>
    intro e m N h1 h2
    have h1d : m.hasProp (d.name ++ "Id") = false := h1 d (by simp)
    have h2d : d.name ≠ N := h2 d (by simp)
    have h1r : ∀ x ∈ rest, m.hasProp (x.name ++ "Id") = false :=
      fun x hx => h1 x (by simp [hx])
    have h2r : ∀ x ∈ rest, x.name ≠ N := fun x hx => h2 x (by simp [hx])
    have hWc : ∀ (e2 : Bool) (m2 : ModelState) (v : Value),
        (∀ x ∈ rest, m2.hasProp (x.name ++ "Id") = false) →
        m2.readProp N = m.readProp N →
        ((loadLoop doLoad conn row e2 rest (m2.write d.name v).2).2).readProp N
          = m.readProp N := by
      intro e2 m2 v hh hr
      rw [ih e2 (m2.write d.name v).2 N
        (fun x hx => by rw [write_hasProp]; exact hh x hx) h2r]
      rw [write_readProp_ne m2 d.name N v h2d, hr]
    have hWa : ∀ (m2 : ModelState) (v : Value),
        m2.readProp N = m.readProp N →
        ((m2.write d.name v).2).readProp N = m.readProp N := by
      intro m2 v hr
      rw [write_readProp_ne m2 d.name N v h2d, hr]
    simp only [loadLoop]
    cases hrel : d.related
    case none =>
      cases hdb : rowValue row d.name <;>
      · by_cases hw : ((m.write d.name (rowValue row d.name)).1)
        · rw [hdb] at hw
          simp [hrel, hdb, hw, hWc e m _ h1r rfl]
        · rw [hdb] at hw
          simp only [Bool.not_eq_true] at hw
          cases he : e
          · simp [hrel, hdb, hw, hWc false m _ h1r rfl]
          · simp [hrel, hdb, hw, hWa m _ rfl]
    case some sch =>
      cases hdb : rowValue row d.name
      case vInt fk =>
        cases he : e
        · have hm1 : ∀ x ∈ rest,
              (m.setProperty (d.name ++ "Id") (Value.vInt fk)).hasProp (x.name ++ "Id")
                = false := by
            intro x hx
            rw [setProperty_hasProp]
            exact h1r x hx
          simp [hrel, hdb,
            hWc false (m.setProperty (d.name ++ "Id") (Value.vInt fk)) _ hm1
              (setProperty_dyn_readProp m _ N _ h1d)]
        · by_cases hw : ((m.write d.name
              (if (doLoad conn (freshFromSchema sch) (Value.vInt fk).toUInt true).1
                then Value.vModel
                  (doLoad conn (freshFromSchema sch) (Value.vInt fk).toUInt true).2
                else Value.vInt fk)).1)
          · simp [hrel, hdb, hw, hWc true m _ h1r rfl]
          · simp only [Bool.not_eq_true] at hw
            simp [hrel, hdb, hw, hWa m _ rfl]
      case vStr s =>
        by_cases hw : ((m.write d.name (Value.vStr s)).1)
        · simp [hrel, hdb, hw, hWc e m _ h1r rfl]
        · simp only [Bool.not_eq_true] at hw
          cases he : e
          · simp [hrel, hdb, hw, hWc false m _ h1r rfl]
          · simp [hrel, hdb, hw, hWa m _ rfl]
      case vModel rm =>
        by_cases hw : ((m.write d.name (Value.vModel rm)).1)
        · simp [hrel, hdb, hw, hWc e m _ h1r rfl]
        · simp only [Bool.not_eq_true] at hw
          cases he : e
          · simp [hrel, hdb, hw, hWc false m _ h1r rfl]
          · simp [hrel, hdb, hw, hWa m _ rfl]
      case vInvalid =>
        by_cases hw : ((m.write d.name Value.vInvalid).1)
        · simp [hrel, hdb, hw, hWc e m _ h1r rfl]
        · simp only [Bool.not_eq_true] at hw
          cases he : e
          · simp [hrel, hdb, hw, hWc false m _ h1r rfl]
          · simp [hrel, hdb, hw, hWa m _ rfl]

/-- An eager property loop aborts with failure as soon as any plain
attribute's write-back of its row value is rejected. -/
theorem loadLoop_eager_abort
    (doLoad : DBConn → ModelState → Nat → Bool → Bool × ModelState)
    (conn : DBConn) (row : Row) (ds : List PropDesc) :
    ∀ (m : ModelState) (p : PropDesc),
      p ∈ ds →
      p.related = none →
      m.findDesc p.name = some p →
      writable p (rowValue row p.name) = false →
      (loadLoop doLoad conn row true ds m).1 = false := by
  induction ds with
  | nil =>
    intro m p hp
    simp at hp
  | cons d rest ih =>
    intro m p hp hrel hfd hnw
    rcases List.mem_cons.mp hp with hpd | hpr
    · subst hpd
      have hwf : m.write p.name (rowValue row p.name) = (false, m) :=
        write_fail_eq m p.name _ p hfd hnw
      simp only [loadLoop]
      cases hdb : rowValue row p.name <;>
      · rw [hdb] at hwf
        simp [hrel, hdb, hwf]
    · have hW : ∀ (m2 : ModelState) (v : Value),
          m2.findDesc p.name = some p →
          (loadLoop doLoad conn row true rest (m2.write d.name v).2).1 = false := by
        intro m2 v hf2
        exact ih (m2.write d.name v).2 p hpr hrel
          (by rw [write_findDesc]; exact hf2) hnw
      simp only [loadLoop]
      cases hrel2 : d.related
      case none =>
        cases hdb2 : rowValue row d.name <;>
        · by_cases hw : ((m.write d.name (rowValue row d.name)).1)
          · rw [hdb2] at hw
            simp [hrel2, hdb2, hw, hW m _ hfd]
          · rw [hdb2] at hw
            simp only [Bool.not_eq_true] at hw
            simp [hrel2, hdb2, hw]
      case some sch2 =>
        cases hdb2 : rowValue row d.name
        case vInt fk2 =>
          by_cases hw : ((m.write d.name
              (if (doLoad conn (freshFromSchema sch2) (Value.vInt fk2).toUInt true).1
                then Value.vModel
                  (doLoad conn (freshFromSchema sch2) (Value.vInt fk2).toUInt true).2
                else Value.vInt fk2)).1)
          · simp [hrel2, hdb2, hw, hW m _ hfd]
          · simp only [Bool.not_eq_true] at hw
            simp [hrel2, hdb2, hw]
        case vStr s =>
          by_cases hw : ((m.write d.name (Value.vStr s)).1)
          · simp [hrel2, hdb2, hw, hW m _ hfd]
          · simp only [Bool.not_eq_true] at hw
            simp [hrel2, hdb2, hw]
        case vModel rm =>
          by_cases hw : ((m.write d.name (Value.vModel rm)).1)
          · simp [hrel2, hdb2, hw, hW m _ hfd]
          · simp only [Bool.not_eq_true] at hw
            simp [hrel2, hdb2, hw]
        case vInvalid =>
          by_cases hw : ((m.write d.name Value.vInvalid).1)
          · simp [hrel2, hdb2, hw, hW m _ hfd]
          · simp only [Bool.not_eq_true] at hw
            simp [hrel2, hdb2, hw]

/-- An eager property loop over plain attributes succeeds when every
attribute's row value is accepted by its write-back. -/
theorem loadLoop_eager_ok
    (doLoad : DBConn → ModelState → Nat → Bool → Bool × ModelState)
    (conn : DBConn) (row : Row) (ds : List PropDesc) :
    ∀ m : ModelState,
      (∀ p ∈ ds, p.related = none ∧ m.findDesc p.name = some p
        ∧ writable p (rowValue row p.name) = true) →
      (loadLoop doLoad conn row true ds m).1 = true := by
  induction ds with
  | nil =>
    intro m _
    rfl
  | cons d rest ih =>
    intro m h
    obtain ⟨hrel, hfd, hw⟩ := h d (by simp)
    have hws := (write_readProp_self m d.name (rowValue row d.name) d hfd hw).1
    have hrest : ∀ p ∈ rest,
        p.related = none
        ∧ ((m.write d.name (rowValue row d.name)).2).findDesc p.name = some p
        ∧ writable p (rowValue row p.name) = true := by
      intro p hp
      obtain ⟨a, b, c⟩ := h p (by simp [hp])
      exact ⟨a, by rw [write_findDesc]; exact b, c⟩
    simp only [loadLoop]
    cases hdb : rowValue row d.name <;>
    · rw [hdb] at hws hrest
      simp [hrel, hdb, hws, ih _ hrest]

/-- After a successful load loop, every plain attribute whose row
value its write-back accepts holds exactly that row value (in either
mode). -/
theorem loadLoop_plain_value
    (doLoad : DBConn → ModelState → Nat → Bool → Bool × ModelState)
    (conn : DBConn) (row : Row) (ds : List PropDesc) :
    ∀ (e : Bool) (m : ModelState) (p : PropDesc),
      p ∈ ds →
      (ds.map PropDesc.name).Nodup →
      (∀ d ∈ ds, m.hasProp (d.name ++ "Id") = false) →
      p.related = none →
      m.findDesc p.name = some p →
      writable p (rowValue row p.name) = true →
      (loadLoop doLoad conn row e ds m).1 = true →
      ((loadLoop doLoad conn row e ds m).2).readProp p.name = rowValue row p.name := by
  induction ds with
  | nil =>
    intro e m p hp
    simp at hp
  | cons d rest ih =>
    intro e m p hp hnd h1 hrel hfd hwr hok
    simp only [List.map_cons, List.nodup_cons] at hnd
    rcases List.mem_cons.mp hp with hpd | hpr
    · subst hpd
      have hws := write_readProp_self m p.name (rowValue row p.name) p hfd hwr
      have hBname : ∀ x ∈ rest, x.name ≠ p.name := by
        intro x hx hcs
        exact hnd.1 (hcs ▸ List.mem_map_of_mem PropDesc.name hx)
      have hpres := loadLoop_preserves_readProp doLoad conn row rest e
        ((m.write p.name (rowValue row p.name)).2) p.name
        (fun x hx => by rw [write_hasProp]; exact h1 x (by simp [hx])) hBname
      simp only [loadLoop]
      cases hdb : rowValue row p.name <;>
      · rw [hdb] at hws hpres
        simp [hrel, hdb, hws.1, hpres, hws.2]
    · have hdnp : d.name ≠ p.name := by
        intro hcs
        exact hnd.1 (hcs ▸ List.mem_map_of_mem PropDesc.name hpr)
      have h1d : m.hasProp (d.name ++ "Id") = false := h1 d (by simp)
      have h1r : ∀ x ∈ rest, m.hasProp (x.name ++ "Id") = false :=
        fun x hx => h1 x (by simp [hx])
      have hW : ∀ (e2 : Bool) (m2 : ModelState) (v : Value),
          (∀ x ∈ rest, m2.hasProp (x.name ++ "Id") = false) →
          m2.findDesc p.name = some p →
          (loadLoop doLoad conn row e2 rest (m2.write d.name v).2).1 = true →
          ((loadLoop doLoad conn row e2 rest (m2.write d.name v).2).2).readProp p.name
            = rowValue row p.name := by
        intro e2 m2 v hh hf2 hok2
        exact ih e2 (m2.write d.name v).2 p hpr hnd.2
          (fun x hx => by rw [write_hasProp]; exact hh x hx) hrel
          (by rw [write_findDesc]; exact hf2) hwr hok2
      simp only [loadLoop] at hok ⊢
      cases hrel2 : d.related
      case none =>
        cases hdb2 : rowValue row d.name <;>
        · by_cases hw : ((m.write d.name (rowValue row d.name)).1)
          · rw [hdb2] at hw
            simp [hrel2, hdb2, hw] at hok ⊢
            exact hW e m _ h1r hfd hok
          · rw [hdb2] at hw
            simp only [Bool.not_eq_true] at hw
            cases he : e
            · simp [hrel2, hdb2, hw, he] at hok ⊢
              exact hW false m _ h1r hfd hok
            · rw [he] at hok
              simp [hrel2, hdb2, hw] at hok
      case some sch2 =>
        cases hdb2 : rowValue row d.name
        case vInt fk2 =>
          cases he : e
          · have hm1 : ∀ x ∈ rest,
                (m.setProperty (d.name ++ "Id") (Value.vInt fk2)).hasProp
                  (x.name ++ "Id") = false := by
              intro x hx
              rw [setProperty_hasProp]
              exact h1r x hx
            rw [he] at hok
            simp [hrel2, hdb2] at hok ⊢
            exact hW false (m.setProperty (d.name ++ "Id") (Value.vInt fk2)) _ hm1
              (by rw [setProperty_findDesc]; exact hfd) hok
          · by_cases hw : ((m.write d.name
                (if (doLoad conn (freshFromSchema sch2) (Value.vInt fk2).toUInt true).1
                  then Value.vModel
                    (doLoad conn (freshFromSchema sch2) (Value.vInt fk2).toUInt true).2
                  else Value.vInt fk2)).1)
            · rw [he] at hok
              simp [hrel2, hdb2, hw] at hok ⊢
              exact hW true m _ h1r hfd hok
            · simp only [Bool.not_eq_true] at hw
              rw [he] at hok
              simp [hrel2, hdb2, hw] at hok
        case vStr s =>
          by_cases hw : ((m.write d.name (Value.vStr s)).1)
          · simp [hrel2, hdb2, hw] at hok ⊢
            exact hW e m _ h1r hfd hok
          · simp only [Bool.not_eq_true] at hw
            cases he : e
            · simp [hrel2, hdb2, hw, he] at hok ⊢
              exact hW false m _ h1r hfd hok
            · rw [he] at hok
              simp [hrel2, hdb2, hw] at hok
        case vModel rm =>
          by_cases hw : ((m.write d.name (Value.vModel rm)).1)
          · simp [hrel2, hdb2, hw] at hok ⊢
            exact hW e m _ h1r hfd hok
          · simp only [Bool.not_eq_true] at hw
            cases he : e
            · simp [hrel2, hdb2, hw, he] at hok ⊢
              exact hW false m _ h1r hfd hok
            · rw [he] at hok
              simp [hrel2, hdb2, hw] at hok
        case vInvalid =>
          by_cases hw : ((m.write d.name Value.vInvalid).1)
          · simp [hrel2, hdb2, hw] at hok ⊢
            exact hW e m _ h1r hfd hok
          · simp only [Bool.not_eq_true] at hw
            cases he : e
            · simp [hrel2, hdb2, hw, he] at hok ⊢
              exact hW false m _ h1r hfd hok
            · rw [he] at hok
              simp [hrel2, hdb2, hw] at hok

/-- `loadBody` never assigns the instance's id: the loop starts past
the base-class properties, and no other statement writes it. -/
theorem loadBody_m_id (deeper : Option (DBConn → ModelState → Nat → Bool → Bool × ModelState))
    (conn : DBConn) (m : ModelState) (i : Nat) (e : Bool) :
    ((loadBody deeper conn m i e).2).m_id = m.m_id := by
  unfold loadBody
  by_cases hp : selectText m ∈ conn.prepFail
  · simp [hp]
  · by_cases hx : selectText m ∈ conn.execFail
    · simp [hp, hx]
    · cases hrow : conn.lookupRow m.table i with
      | none => simp [hp, hx, hrow]
      | some row =>
        cases deeper with
        | none => simp [hp, hx, hrow]
        | some doLoad => simp [hp, hx, hrow, loadLoop_m_id]

/-- `loadBody` reports failure whenever the requested row is absent. -/
theorem loadBody_row_none
    (deeper : Option (DBConn → ModelState → Nat → Bool → Bool × ModelState))
    (conn : DBConn) (m : ModelState) (i : Nat) (e : Bool)
    (hrow : conn.lookupRow m.table i = none) :
    (loadBody deeper conn m i e).1 = false := by
  unfold loadBody
  by_cases hp : selectText m ∈ conn.prepFail
  · simp [hp]
  · by_cases hx : selectText m ∈ conn.execFail
    · simp [hp, hx]
    · simp [hp, hx, hrow]

/-- In lazy mode, `loadBody` succeeds exactly when the select can be
prepared and executed and the row exists. -/
theorem loadBody_lazy_ok (doLoad : DBConn → ModelState → Nat → Bool → Bool × ModelState)
    (conn : DBConn) (m : ModelState) (i : Nat) :
    (loadBody (some doLoad) conn m i false).1 =
      (!(conn.prepFail.contains (selectText m))
        && !(conn.execFail.contains (selectText m))
        && (conn.lookupRow m.table i).isSome) := by
  unfold loadBody
  by_cases hp : selectText m ∈ conn.prepFail
  · simp [hp]
  · by_cases hx : selectText m ∈ conn.execFail
    · simp [hp, hx]
    · cases hrow : conn.lookupRow m.table i with
      | none => simp [hp, hx, hrow]
      | some row => simp [hp, hx, hrow, loadLoop_lazy_ok]

/-- `loadBody` reports failure when the driver cannot prepare the
select. -/
theorem loadBody_prep_fail
    (deeper : Option (DBConn → ModelState → Nat → Bool → Bool × ModelState))
    (conn : DBConn) (m : ModelState) (i : Nat) (e : Bool)
    (hp : selectText m ∈ conn.prepFail) :
    (loadBody deeper conn m i e).1 = false := by
  unfold loadBody
  simp [hp]

/-- `loadBody` reports failure when the driver rejects executing the
select. -/
theorem loadBody_exec_fail
    (deeper : Option (DBConn → ModelState → Nat → Bool → Bool × ModelState))
    (conn : DBConn) (m : ModelState) (i : Nat) (e : Bool)
    (hx : selectText m ∈ conn.execFail) :
    (loadBody deeper conn m i e).1 = false := by
  unfold loadBody
  by_cases hp : selectText m ∈ conn.prepFail
  · simp [hp]
  · simp [hp, hx]

/-- Past the recursion budget the body reports failure on every path
(an artifact of the fuel encoding, never reached at a sufficient
budget). -/
theorem loadBody_none_false (conn : DBConn) (m : ModelState) (i : Nat) (e : Bool) :
    (loadBody none conn m i e).1 = false := by
  unfold loadBody
  by_cases hp : selectText m ∈ conn.prepFail
  · simp [hp]
  · by_cases hx : selectText m ∈ conn.execFail
    · simp [hp, hx]
    · cases hrow : conn.lookupRow m.table i with
      | none => simp [hp, hx, hrow]
      | some row => simp [hp, hx, hrow]

/-- An eager `loadBody` on a present row fails whenever some plain
attribute's write-back of its row value is rejected. -/
theorem loadBody_eager_abort_attr
    (doLoad : DBConn → ModelState → Nat → Bool → Bool × ModelState)
    (conn : DBConn) (m : ModelState) (i : Nat) (p : PropDesc) (row : Row)
    (hrow : conn.lookupRow m.table i = some row)
    (hmem : p ∈ m.descs)
    (hrel : p.related = none)
    (hfd : m.findDesc p.name = some p)
    (hnw : writable p (rowValue row p.name) = false) :
    (loadBody (some doLoad) conn m i true).1 = false := by
  by_cases hp : selectText m ∈ conn.prepFail
  · exact loadBody_prep_fail _ conn m i true hp
  · by_cases hx : selectText m ∈ conn.execFail
    · exact loadBody_exec_fail _ conn m i true hx
    · have hred : loadBody (some doLoad) conn m i true
          = loadLoop doLoad conn row true m.descs m := by
        unfold loadBody
        simp [hp, hx, hrow]
      rw [hred]
      exact loadLoop_eager_abort doLoad conn row m.descs m p hmem hrel hfd hnw

/-- An eager `loadBody` on a present row succeeds when every attribute
is plain and its row value is accepted by its write-back. -/
theorem loadBody_eager_ok_attrs
    (doLoad : DBConn → ModelState → Nat → Bool → Bool × ModelState)
    (conn : DBConn) (m : ModelState) (i : Nat) (row : Row)
    (hrow : conn.lookupRow m.table i = some row)
    (hp : selectText m ∉ conn.prepFail)
    (hx : selectText m ∉ conn.execFail)
    (hall : ∀ p ∈ m.descs, p.related = none ∧ m.findDesc p.name = some p
      ∧ writable p (rowValue row p.name) = true) :
    (loadBody (some doLoad) conn m i true).1 = true := by
  have hred : loadBody (some doLoad) conn m i true
      = loadLoop doLoad conn row true m.descs m := by
    unfold loadBody
    simp [hp, hx, hrow]
  rw [hred]
  exact loadLoop_eager_ok doLoad conn row m.descs m hall

/-- After a successful `loadBody` over a present row, every plain
attribute whose row value its write-back accepts holds exactly that
row value, in either mode. -/
theorem loadBody_plain_value_attr
    (doLoad : DBConn → ModelState → Nat → Bool → Bool × ModelState)
    (conn : DBConn) (m : ModelState) (i : Nat) (e : Bool) (row : Row) (p : PropDesc)
    (hrow : conn.lookupRow m.table i = some row)
    (hnd : (m.descs.map PropDesc.name).Nodup)
    (hfresh : ∀ x ∈ m.descs, m.hasProp (x.name ++ "Id") = false)
    (hmem : p ∈ m.descs)
    (hrel : p.related = none)
    (hfd : m.findDesc p.name = some p)
    (hwr : writable p (rowValue row p.name) = true)
    (hok : (loadBody (some doLoad) conn m i e).1 = true) :
    ((loadBody (some doLoad) conn m i e).2).readProp p.name = rowValue row p.name := by
  by_cases hp : selectText m ∈ conn.prepFail
  · rw [loadBody_prep_fail _ conn m i e hp] at hok
    simp at hok
  · by_cases hx : selectText m ∈ conn.execFail
    · rw [loadBody_exec_fail _ conn m i e hx] at hok
      simp at hok
    · have hred : loadBody (some doLoad) conn m i e
          = loadLoop doLoad conn row e m.descs m := by
        unfold loadBody
        simp [hp, hx, hrow]
      rw [hred] at hok ⊢
      exact loadLoop_plain_value doLoad conn row m.descs e m p hmem hnd hfresh
        hrel hfd hwr hok

/-- `load` never assigns the instance's id. -/
theorem load_m_id (fuel : Nat) (conn : DBConn) (m : ModelState) (i : Nat) (e : Bool) :
    ((ModelState.load fuel conn m i e).2).m_id = m.m_id := by
  cases fuel with
  | zero => exact loadBody_m_id none conn m i e
  | succ f => exact loadBody_m_id _ conn m i e

/-- C3 counterexample: `orders` row 5 exists in `rowsDB`, and the lazy
load of a fresh instance reports success — yet the loaded instance is
not `Saved` (its id was never assigned and remains 0), and the relation
attribute's rejected write-back (silently ignored in lazy mode) left
the attribute unset. This refutes both the claimed `Saved` transition
and the claimed failure on a write-back failure in lazy mode. -/
theorem c3_counterexample_lazy_load_not_saved :
    (rowsDB.lookupRow "orders" 5).isSome = true
    ∧ (ModelState.load 2 rowsDB freshOrder 5 false).1 = true
    ∧ ((ModelState.load 2 rowsDB freshOrder 5 false).2).isSaved = false
    ∧ ((ModelState.load 2 rowsDB freshOrder 5 false).2).readProp "customer"
        = Value.vInvalid :=
  ⟨rfl, rfl, rfl, rfl⟩

/-- C3 amended: `load` never changes the instance's id, so a fresh
instance stays unsaved even after a successful load; an absent row, a
select the driver cannot prepare, and a select the driver rejects
executing each make `load` report failure; in lazy mode `load`
succeeds exactly when the select can be prepared and executed and the
row exists — write-back failures are silently ignored; in eager mode
a rejected write-back of a plain attribute's row value aborts the
load with failure, while a present row all of whose values are
accepted by their plain attributes makes the eager load succeed; and
after any successful load, every plain attribute whose row value its
write-back accepts holds exactly the loaded row value. -/
theorem c3_load_id_and_failure (fuel : Nat) (conn : DBConn) (m : ModelState) (i : Nat)
    (eagerLoad : Bool) :
    ((ModelState.load fuel conn m i eagerLoad).2).m_id = m.m_id
    ∧ (conn.lookupRow m.table i = none →
        (ModelState.load fuel conn m i eagerLoad).1 = false)
    ∧ (eagerLoad = false → 0 < fuel →
        (ModelState.load fuel conn m i eagerLoad).1 =
          (!(conn.prepFail.contains (selectText m))
            && !(conn.execFail.contains (selectText m))
            && (conn.lookupRow m.table i).isSome))
    ∧ (selectText m ∈ conn.prepFail →
        (ModelState.load fuel conn m i eagerLoad).1 = false)
    ∧ (selectText m ∈ conn.execFail →
        (ModelState.load fuel conn m i eagerLoad).1 = false)
    ∧ (∀ (row : Row) (p : PropDesc),
        conn.lookupRow m.table i = some row →
        p ∈ m.descs →
        p.related = none →
        m.findDesc p.name = some p →
        writable p (rowValue row p.name) = false →
        (ModelState.load fuel conn m i true).1 = false)
    ∧ (∀ row : Row,
        0 < fuel →
        conn.lookupRow m.table i = some row →
        selectText m ∉ conn.prepFail →
        selectText m ∉ conn.execFail →
        (∀ p ∈ m.descs, p.related = none ∧ m.findDesc p.name = some p
          ∧ writable p (rowValue row p.name) = true) →
        (ModelState.load fuel conn m i true).1 = true)
    ∧ (∀ (row : Row) (p : PropDesc),
        conn.lookupRow m.table i = some row →
        (m.descs.map PropDesc.name).Nodup →
        (∀ x ∈ m.descs, m.hasProp (x.name ++ "Id") = false) →
        p ∈ m.descs →
        p.related = none →
        m.findDesc p.name = some p →
        writable p (rowValue row p.name) = true →
        (ModelState.load fuel conn m i eagerLoad).1 = true →
        ((ModelState.load fuel conn m i eagerLoad).2).readProp p.name
          = rowValue row p.name) := by
  refine ⟨load_m_id fuel conn m i eagerLoad, ?_, ?_, ?_, ?_, ?_, ?_, ?_⟩
  · intro hrow
    cases fuel with
    | zero => exact loadBody_row_none none conn m i eagerLoad hrow
    | succ f => exact loadBody_row_none _ conn m i eagerLoad hrow
  · intro he hf
    subst he
    cases fuel with
    | zero => exact absurd hf (by simp)
    | succ f => exact loadBody_lazy_ok _ conn m i
  · intro hp
    cases fuel with
    | zero => exact loadBody_prep_fail none conn m i eagerLoad hp
    | succ f => exact loadBody_prep_fail _ conn m i eagerLoad hp
  · intro hx
    cases fuel with
    | zero => exact loadBody_exec_fail none conn m i eagerLoad hx
    | succ f => exact loadBody_exec_fail _ conn m i eagerLoad hx
  · intro row p hrow hmem hrel hfd hnw
    cases fuel with
    | zero => exact loadBody_none_false conn m i true
    | succ f =>
      exact loadBody_eager_abort_attr _ conn m i p row hrow hmem hrel hfd hnw
  · intro row hf hrow hp hx hall
    cases fuel with
    | zero => exact absurd hf (by simp)
    | succ f =>
      exact loadBody_eager_ok_attrs _ conn m i row hrow hp hx hall
  · intro row p hrow hnd hfresh hmem hrel hfd hwr hok
    cases fuel with
    | zero =>
      simp only [ModelState.load] at hok
      rw [loadBody_none_false conn m i eagerLoad] at hok
      simp at hok
    | succ f =>
      exact loadBody_plain_value_attr _ conn m i eagerLoad row p hrow hnd hfresh
        hmem hrel hfd hwr hok

/-- C3 witness: the amended behaviour at concrete inputs — an eager
load from `rowsDB` leaves the fresh instance's id at 0; loading a
missing row id fails; the concrete lazy load succeeds; a driver that
cannot prepare, or rejects executing, the select makes the load fail;
a stored row lacking the `total` column makes the eager load abort on
that attribute's rejected write-back; and the eager load of the
all-plain `Customer` from `rowsDB` succeeds with the `name` attribute
holding the loaded value `"Ann"`. -/
theorem c3_witness :
    ((ModelState.load 2 rowsDB freshOrder 5 true).2).m_id = 0
    ∧ (ModelState.load 2 rowsDB freshOrder 99 true).1 = false
    ∧ (ModelState.load 2 rowsDB freshOrder 5 false).1 = true
    ∧ (ModelState.load 2 rowsDBPrepFail freshOrder 5 true).1 = false
    ∧ (ModelState.load 2 rowsDBExecFail freshOrder 5 true).1 = false
    ∧ (ModelState.load 2 rowsDBNoTotal freshOrder 5 true).1 = false
    ∧ (ModelState.load 2 rowsDB freshCustomer 7 true).1 = true
    ∧ ((ModelState.load 2 rowsDB freshCustomer 7 true).2).readProp "name"
        = Value.vStr "Ann" := by
  refine ⟨(c3_load_id_and_failure 2 rowsDB freshOrder 5 true).1,
    ?_, ?_, ?_, ?_, ?_, ?_, ?_⟩
  · exact (c3_load_id_and_failure 2 rowsDB freshOrder 99 true).2.1 rfl
  · exact ((c3_load_id_and_failure 2 rowsDB freshOrder 5 false).2.2.1 rfl
      (Nat.succ_pos 1)).trans rfl
  · exact (c3_load_id_and_failure 2 rowsDBPrepFail freshOrder 5 true).2.2.2.1
      (by decide)
  · exact (c3_load_id_and_failure 2 rowsDBExecFail freshOrder 5 true).2.2.2.2.1
      (by decide)
  · exact (c3_load_id_and_failure 2 rowsDBNoTotal freshOrder 5 true).2.2.2.2.2.1
      [("customer", Value.vInt 7)] (PropDesc.mk "total" none) rfl
      (List.Mem.head _) rfl rfl rfl
  · exact (c3_load_id_and_failure 2 rowsDB freshCustomer 7 true).2.2.2.2.2.2.1
      [("name", Value.vStr "Ann")] (Nat.succ_pos 1) rfl (by decide) (by decide)
      (by
        intro p hp
        have hp2 : p ∈ [PropDesc.mk "name" none] := hp
        cases hp2 with
        | head => exact ⟨rfl, rfl, rfl⟩
        | tail _ h => cases h)
  · exact ((c3_load_id_and_failure 2 rowsDB freshCustomer 7 true).2.2.2.2.2.2.2
      [("name", Value.vStr "Ann")] (PropDesc.mk "name" none) rfl (by decide)
      (by decide) (List.Mem.head _) rfl rfl rfl rfl).trans rfl

/-- A relation attribute's type accepts a related entity. -/
theorem writable_rel_model (d : PropDesc) (rsch : Schema) (x : ModelState)
    (hrel : d.related = some rsch) :
    writable d (Value.vModel x) = true := by
  unfold writable
  rw [hrel]

/-- In lazy mode, `loadBody` on a present row succeeds, stores the
relation attribute's foreign key under the dynamic side-key and leaves
the attribute's value unchanged. -/
theorem loadBody_lazy_sidekey
    (doLoad : DBConn → ModelState → Nat → Bool → Bool × ModelState)
    (conn : DBConn) (m : ModelState) (i : Nat) (p : PropDesc) (sch : Schema)
    (fk : Int) (row : Row)
    (hrow : conn.lookupRow m.table i = some row)
    (hp : selectText m ∉ conn.prepFail)
    (hx : selectText m ∉ conn.execFail)
    (hmem : p ∈ m.descs)
    (hnd : (m.descs.map PropDesc.name).Nodup)
    (hrel : p.related = some sch)
    (hrowv : rowValue row p.name = Value.vInt fk)
    (hfd : m.findDesc p.name = some p)
    (hfresh : ∀ x ∈ m.descs, m.hasProp (x.name ++ "Id") = false) :
    (loadBody (some doLoad) conn m i false).1 = true
    ∧ dynLookup ((loadBody (some doLoad) conn m i false).2).dynProps (p.name ++ "Id")
        = some (Value.vInt fk)
    ∧ ((loadBody (some doLoad) conn m i false).2).readProp p.name
        = m.readProp p.name := by
  have hred : loadBody (some doLoad) conn m i false
      = loadLoop doLoad conn row false m.descs m := by
    unfold loadBody
    simp [hp, hx, hrow]
  rw [hred]
  refine ⟨loadLoop_lazy_ok doLoad conn row m.descs m, ?_⟩
  exact loadLoop_lazy_sidekey doLoad conn row m.descs m p sch fk
    hmem hnd hrel hrowv hfd hfresh

/-- C7: for a relation attribute named `nm`, a lazy load stores only
the foreign-key integer under the dynamic side-key `"<nm>Id"` and
leaves the relation attribute unset (its write-back is rejected and
the failure ignored); `loadRelated` fails, with the caller untouched,
when the side-key is absent; and with the side-key present it loads
the related entity by that foreign key — failing with the caller
untouched when that load fails, and on success assigning the loaded
entity into the attribute. -/
theorem c7_lazy_sidekey_loadRelated (fuel : Nat) (conn : DBConn) (m : ModelState)
    (i : Nat) (p : PropDesc) (sch : Schema) (fk : Int) (row : Row)
    (nm : String) (v : Value) (d : PropDesc) (rsch : Schema) (e : Bool) :
    (conn.lookupRow m.table i = some row →
      selectText m ∉ conn.prepFail →
      selectText m ∉ conn.execFail →
      p ∈ m.descs →
      (m.descs.map PropDesc.name).Nodup →
      p.related = some sch →
      rowValue row p.name = Value.vInt fk →
      m.findDesc p.name = some p →
      (∀ x ∈ m.descs, m.hasProp (x.name ++ "Id") = false) →
      (ModelState.load (fuel + 1) conn m i false).1 = true
      ∧ dynLookup ((ModelState.load (fuel + 1) conn m i false).2).dynProps
          (p.name ++ "Id") = some (Value.vInt fk)
      ∧ ((ModelState.load (fuel + 1) conn m i false).2).readProp p.name
          = m.readProp p.name)
    ∧ (m.hasDynProp (nm ++ "Id") = false →
        ModelState.loadRelated fuel conn m nm e = (false, m))
    ∧ (dynLookup m.dynProps (nm ++ "Id") = some v →
        m.hasProp (nm ++ "Id") = false →
        m.findDesc nm = some d →
        d.related = some rsch →
        (((ModelState.load fuel conn (freshFromSchema rsch) v.toUInt e).1 = false →
            ModelState.loadRelated fuel conn m nm e = (false, m))
          ∧ ((ModelState.load fuel conn (freshFromSchema rsch) v.toUInt e).1 = true →
              (ModelState.loadRelated fuel conn m nm e).1 = true
              ∧ ((ModelState.loadRelated fuel conn m nm e).2).readProp nm
                  = Value.vModel (ModelState.load fuel conn
                      (freshFromSchema rsch) v.toUInt e).2))) := by
  refine ⟨?_, ?_, ?_⟩
  · intro hrow hp hx hmem hnd hrel hrowv hfd hfresh
    exact loadBody_lazy_sidekey (fun c rm ri e2 => ModelState.load fuel c rm ri e2)
      conn m i p sch fk row hrow hp hx hmem hnd hrel hrowv hfd hfresh
  · intro hnod
    unfold ModelState.loadRelated
    simp [hnod]
  · intro hv hno hfd hrel
    have hdp : m.hasDynProp (nm ++ "Id") = true := by
      unfold ModelState.hasDynProp
      exact dynLookup_any m.dynProps (nm ++ "Id") v hv
    have hread : m.propertyRead (nm ++ "Id") = v := by
      unfold ModelState.propertyRead
      rw [hno]
      simp [hv]
    constructor
    · intro hfail
      unfold ModelState.loadRelated
      simp only [hdp, Bool.not_true, Bool.false_eq_true, if_false, hread, hfd, hrel]
      simp [hfail]
    · intro hok
      unfold ModelState.loadRelated
      simp only [hdp, Bool.not_true, Bool.false_eq_true, if_false, hread, hfd, hrel]
      simp only [hok, Bool.not_true, Bool.false_eq_true, if_false]
      refine ⟨by trivial, ?_⟩
      exact (write_readProp_self m nm _ d hfd (writable_rel_model d rsch _ hrel)).2

/-- C7 witness: on the concrete `rowsDB`, the lazy load of `orders`
row 5 succeeds, stores `customerId = 7` as a dynamic side-key and
leaves the `customer` attribute unset; `loadRelated` on the fresh
instance (no side-key) fails with the instance untouched; and
`loadRelated` on the lazily loaded instance succeeds and assigns the
loaded `Customer` into the attribute. -/
theorem c7_witness :
    ((ModelState.load 2 rowsDB freshOrder 5 false).1 = true
      ∧ dynLookup ((ModelState.load 2 rowsDB freshOrder 5 false).2).dynProps
          ("customer" ++ "Id") = some (Value.vInt 7)
      ∧ ((ModelState.load 2 rowsDB freshOrder 5 false).2).readProp "customer"
          = freshOrder.readProp "customer")
    ∧ ModelState.loadRelated 1 rowsDB freshOrder "customer" true = (false, freshOrder)
    ∧ ((ModelState.loadRelated 1 rowsDB afterLazy "customer" true).1 = true
      ∧ ((ModelState.loadRelated 1 rowsDB afterLazy "customer" true).2).readProp
          "customer"
          = Value.vModel (ModelState.load 1 rowsDB (freshFromSchema customerSchema)
              (Value.vInt 7).toUInt true).2) := by
  refine ⟨?_, ?_, ?_⟩
  · exact (c7_lazy_sidekey_loadRelated 1 rowsDB freshOrder 5
      (PropDesc.mk "customer" (some customerSchema)) customerSchema 7
      [("total", Value.vInt 10), ("customer", Value.vInt 7)]
      "customer" (Value.vInt 7) (PropDesc.mk "customer" (some customerSchema))
      customerSchema true).1 rfl (by decide) (by decide)
      (List.Mem.tail _ (List.Mem.head _)) (by decide) rfl rfl rfl (by decide)
  · exact (c7_lazy_sidekey_loadRelated 1 rowsDB freshOrder 5
      (PropDesc.mk "customer" (some customerSchema)) customerSchema 7
      [("total", Value.vInt 10), ("customer", Value.vInt 7)]
      "customer" (Value.vInt 7) (PropDesc.mk "customer" (some customerSchema))
      customerSchema true).2.1 rfl
  · exact ((c7_lazy_sidekey_loadRelated 1 rowsDB afterLazy 5
      (PropDesc.mk "customer" (some customerSchema)) customerSchema 7
      [("total", Value.vInt 10), ("customer", Value.vInt 7)]
      "customer" (Value.vInt 7) (PropDesc.mk "customer" (some customerSchema))
      customerSchema true).2.2 rfl rfl rfl rfl).2 rfl

end QtModel

